import Mathlib

/-
Verification development for the mode-configuration store of the
`query_gguf` launcher (source: src/query_gguf/src/main.rs).

Modelling decisions (shallow embedding):
* Rust `&str` / `String` values are modelled as `List Char` (`Str` below);
  every string operation used by the program (`split`, `split_once`,
  `splitn(2, _)`, `trim`, `trim_start`, `trim_matches`,
  `trim_start_matches`, `starts_with`, `strip_prefix`, `lines`, `join`)
  is implemented here on `List Char` with the semantics of the Rust
  standard library.  `char::is_whitespace` is modelled by
  `Char.isWhitespace` (ASCII whitespace; the inputs of interest are
  ASCII).
* Rust `f32` values are modelled as exact decimal rational numbers (ℚ):
  parsing a plain decimal literal is exact, and `Display` formatting
  (which in Rust prints the shortest decimal that round-trips) is
  modelled by printing the exact decimal with the fewest fractional
  digits.  The special float forms (`inf`, `nan`, exponent notation)
  are outside the model; parsing of such strings is modelled as a
  failure, which only makes a parameter token fall back to its default,
  exactly like any other unparseable token.
* Rust `i32` / `usize` parsing includes the overflow check of
  `from_str`; `i32` values are modelled as ℤ with the range checked at
  parse time.
* Filesystem paths are Unix paths: `Path::is_absolute` is `starts with
  '/'`, and `PathBuf::join`/`push` appends a separator when needed and
  replaces the path when the argument is absolute.
* The environment-dependent quantities (home directory, prompts
  directory, detected CPU count) are parameters of the model; the file
  contents read and written by the program are explicit arguments and
  results.
-/

namespace QueryGguf

/-- Strings of the modelled program. -/
abbrev Str := List Char

/-! ## Character and string primitives -/

/-- Rust `str::trim_start` (drop leading whitespace). -/
def trimLeft (s : Str) : Str := s.dropWhile Char.isWhitespace

/-- Rust `str::trim_end` (drop trailing whitespace). -/
def trimRight (s : Str) : Str := (s.reverse.dropWhile Char.isWhitespace).reverse

/-- Rust `str::trim`. -/
def trim (s : Str) : Str := trimRight (trimLeft s)

/-- Rust `str::contains(char)`. -/
def strContains (s : Str) (c : Char) : Bool := s.any (fun x => x == c)

/-- Helper for `splitOnChar`: prepend a character to the first piece. -/
def consFirst (x : Char) : List Str → List Str
  | [] => [[x]]
  | s :: rest => (x :: s) :: rest

/-- Rust `str::split(char)` (collecting all pieces). -/
def splitOnChar (c : Char) : Str → List Str
  | [] => [[]]
  | x :: xs => if x = c then [] :: splitOnChar c xs else consFirst x (splitOnChar c xs)

/-- Rust `str::split_once(char)`. -/
def splitOnceChar (c : Char) : Str → Option (Str × Str)
  | [] => none
  | x :: xs =>
    if x = c then some ([], xs)
    else (splitOnceChar c xs).map (fun p => (x :: p.1, p.2))

/-- Rust `str::trim_start_matches(char)` (strip every leading occurrence). -/
def trimLeadingChar (c : Char) : Str → Str
  | [] => []
  | x :: xs => if x = c then trimLeadingChar c xs else x :: xs

/-- Fuel-based worker for `trimLeadingStr` (structural recursion keeps
the function kernel-computable; the fuel is always sufficient). -/
def trimLeadingStrAux (pat : Str) : ℕ → Str → Str
  | 0, s => s
  | fuel + 1, s =>
    if pat ≠ [] ∧ pat.isPrefixOf s then trimLeadingStrAux pat fuel (s.drop pat.length)
    else s

/-- Rust `str::trim_start_matches(&str)` with a non-empty pattern
(strip every leading occurrence of the pattern). -/
def trimLeadingStr (pat s : Str) : Str := trimLeadingStrAux pat (s.length + 1) s

/-- Rust `str::trim_matches(char)` (strip every leading and trailing occurrence). -/
def trimCharBoth (c : Char) (s : Str) : Str :=
  (trimLeadingChar c (trimLeadingChar c s).reverse).reverse

/-- Strip a single trailing carriage return (part of Rust `str::lines`). -/
def stripTrailingCR (s : Str) : Str :=
  if s.getLast? = some '\r' then s.dropLast else s

/-- Rust `str::lines`: split on `'\n'`, drop the final piece when it is
empty, and strip a trailing `'\r'` from every piece that was terminated
by a `'\n'`. -/
def linesOf (t : Str) : List Str :=
  let segs := splitOnChar '\n' t
  segs.dropLast.map stripTrailingCR ++
    (if segs.getLastD [] = [] then [] else [segs.getLastD []])

/-- Joining with a single-character separator. -/
def joinSep (c : Char) : List Str → Str
  | [] => []
  | [l] => l
  | l :: ls => l ++ c :: joinSep c ls

/-- Rust `[&str]::join("\n")`. -/
def joinLines (ls : List Str) : Str := joinSep '\n' ls

/-! ## Number parsing and formatting -/

/-- The decimal digit character for `d % 10`-style values. -/
def digitChar (d : ℕ) : Char :=
  match d with
  | 0 => '0' | 1 => '1' | 2 => '2' | 3 => '3' | 4 => '4'
  | 5 => '5' | 6 => '6' | 7 => '7' | 8 => '8' | _ => '9'

/-- Numeric value of a decimal digit character. -/
def digitVal (c : Char) : ℕ := c.toNat - 48

/-- Value of a big-endian digit string. -/
def digitsVal (s : Str) : ℕ := s.foldl (fun a c => 10 * a + digitVal c) 0

/-- Fuel-based worker for `natDigitsRev` (structural recursion keeps
the function kernel-computable; the fuel is always sufficient). -/
def natDigitsRevAux : ℕ → ℕ → List Char
  | 0, _ => []
  | fuel + 1, n =>
    if n < 10 then [digitChar n]
    else digitChar (n % 10) :: natDigitsRevAux fuel (n / 10)

/-- Little-endian decimal digits of a natural number (always non-empty). -/
def natDigitsRev (n : ℕ) : List Char := natDigitsRevAux (n + 1) n

/-- Rust `Display` for unsigned integers. -/
def formatNat (n : ℕ) : Str := (natDigitsRev n).reverse

/-- Rust `Display` for `i32` values (modelled in ℤ). -/
def formatInt (v : ℤ) : Str :=
  if v < 0 then '-' :: formatNat v.natAbs else formatNat v.natAbs

/-- Rust `Display` for `bool`. -/
def formatBool (b : Bool) : Str := if b then "true".toList else "false".toList

/-- Unsigned digit-string parsing (no sign handling). -/
def parseNatCore (s : Str) : Option ℕ :=
  if s.isEmpty then none
  else if s.all Char.isDigit then some (digitsVal s) else none

/-- Rust `str::parse::<usize>` (optional `+` sign, 64-bit overflow check). -/
def parseUsize (s : Str) : Option ℕ :=
  (parseNatCore (if s.headD ' ' = '+' then s.drop 1 else s)).bind
    (fun n => if n < 2 ^ 64 then some n else none)

/-- Rust `str::parse::<i32>` (optional sign, 32-bit overflow check),
modelled in ℤ. -/
def parseI32 (s : Str) : Option ℤ :=
  if s.headD ' ' = '-' then
    (parseNatCore (s.drop 1)).bind
      (fun n => if (n : ℤ) ≤ 2 ^ 31 then some (-(n : ℤ)) else none)
  else
    (parseNatCore (if s.headD ' ' = '+' then s.drop 1 else s)).bind
      (fun n => if (n : ℤ) ≤ 2 ^ 31 - 1 then some ((n : ℤ)) else none)

/-- Rust `str::parse::<bool>`. -/
def parseBoolStr (s : Str) : Option Bool :=
  if s = "true".toList then some true
  else if s = "false".toList then some false
  else none

/-- Unsigned decimal-literal parsing for the `f32` model: digits, an
optional decimal point and further digits. -/
def parsePosF (s : Str) : Option ℚ :=
  let ip := s.takeWhile Char.isDigit
  let rest := s.dropWhile Char.isDigit
  match rest with
  | [] => if ip.isEmpty then none else some ((digitsVal ip : ℚ))
  | '.' :: frac =>
    if frac.all Char.isDigit ∧ (ip ≠ [] ∨ frac ≠ []) then
      some ((digitsVal ip : ℚ) + (digitsVal frac : ℚ) / (10 : ℚ) ^ frac.length)
    else none
  | _ => none

/-- Rust `str::parse::<f32>` restricted to plain decimal literals
(see the modelling note at the top of the file). -/
def parseF32 (s : Str) : Option ℚ :=
  if s.headD ' ' = '-' then (parsePosF (s.drop 1)).map (fun q => -q)
  else if s.headD ' ' = '+' then parsePosF (s.drop 1)
  else parsePosF s

/-- Exactly `k` decimal digits of `n` (big-endian, left-padded with zeros). -/
def padDigits (k n : ℕ) : Str :=
  match k with
  | 0 => []
  | kk + 1 => padDigits kk (n / 10) ++ [digitChar (n % 10)]

/-- Smallest exponent `k` with `den ∣ 10 ^ k`, when one exists. -/
def decExp (den : ℕ) : Option ℕ :=
  (List.range (den + 1)).find? (fun k => den ∣ 10 ^ k)

/-- Rust `Display` for `f32` (modelled in ℚ): the exact decimal
expansion with the fewest fractional digits.  A rational with no finite
decimal expansion can never arise from decoding, and is rendered
arbitrarily. -/
def formatF32 (q : ℚ) : Str :=
  match decExp q.den with
  | some k =>
    let n := q.num.natAbs * 10 ^ k / q.den
    let digits :=
      if k = 0 then formatNat n
      else formatNat (n / 10 ^ k) ++ '.' :: padDigits k (n % 10 ^ k)
    if q.num < 0 then '-' :: digits else digits
  | none => ['0']

/-! ## The data model (main.rs lines 958-967 and 1990-1996) -/

/-- `struct LlamaCppParameters` with `f32` fields modelled in ℚ and
`i32` fields in ℤ. -/
structure LlamaCppParameters where
  temperature_value : ℚ
  top_k_sampling : ℤ
  top_p_sampling : ℚ
  context_size : ℤ
  thread_count : ℤ
  gpu_layers : ℤ
  interactive_first : Bool
deriving DecidableEq, Repr

/-- `struct ChatModeConfig`. -/
structure ChatModeConfig where
  name : Str
  description : Str
  model_path : Str
  prompt_path : Str
  parameters : LlamaCppParameters
deriving DecidableEq, Repr

/-- `impl Default for LlamaCppParameters` (main.rs lines 983-1009).
`d` is the value returned by `get_system_cpu_count()` (the detected CPU
count minus one, at least 1, or the fallback 3); it is a parameter of
the model since it is read from the machine. -/
def defaultParams (d : ℤ) : LlamaCppParameters :=
  { temperature_value := 0.8
    top_k_sampling := 40
    top_p_sampling := 0.9
    context_size := 2000
    thread_count := d
    gpu_layers := 0
    interactive_first := true }

/-- `validate_thread_count` (main.rs lines 1906-1919), with `d` the
value of `get_system_cpu_count()`. -/
def validate_thread_count (d v : ℤ) : ℤ :=
  if v < 1 then 1 else if v > d + 1 then d + 1 else v

/-! ## Parameter-token parsing (main.rs lines 1841-1862) -/

def kTemp : Str := "temp".toList

def kTopK : Str := "top_k".toList

def kTopP : Str := "top_p".toList

def kCtxSize : Str := "ctx_size".toList

def kThreads : Str := "threads".toList

def kGpuLayers : Str := "gpu_layers".toList

def kInterFirst : Str := "interactive_first".toList

/-- One iteration of the loop body of `parse_parameters_from_parts`:
`part.split_once('=')` followed by the `match key`; an unparseable
value or an unknown key leaves the record unchanged. -/
def stepParam (d : ℤ) (p : LlamaCppParameters) (part : Str) : LlamaCppParameters :=
  match splitOnceChar '=' part with
  | none => p
  | some (k, v) =>
    if k = kTemp then
      match parseF32 v with
      | some x => { p with temperature_value := x }
      | none => p
    else if k = kTopK then
      match parseI32 v with
      | some x => { p with top_k_sampling := x }
      | none => p
    else if k = kTopP then
      match parseF32 v with
      | some x => { p with top_p_sampling := x }
      | none => p
    else if k = kCtxSize then
      match parseI32 v with
      | some x => { p with context_size := x }
      | none => p
    else if k = kThreads then
      match parseI32 v with
      | some x => { p with thread_count := validate_thread_count d x }
      | none => p
    else if k = kGpuLayers then
      match parseI32 v with
      | some x => { p with gpu_layers := x }
      | none => p
    else if k = kInterFirst then
      match parseBoolStr v with
      | some x => { p with interactive_first := x }
      | none => p
    else p

/-- `parse_parameters_from_parts` (main.rs lines 1841-1862). -/
def parse_parameters_from_parts (d : ℤ) (parts : List Str) : LlamaCppParameters :=
  parts.foldl (stepParam d) (defaultParams d)

/-! ## Path resolution helpers -/

/-- Unix `Path::is_absolute`. -/
def isAbsolutePath (p : Str) : Bool :=
  match p with
  | '/' :: _ => true
  | _ => false

/-- Unix `PathBuf::join` / `push`: replace on an absolute argument,
otherwise append, inserting a `'/'` separator when needed. -/
def joinPath (base p : Str) : Str :=
  if isAbsolutePath p then p
  else if base = [] then p
  else if base.getLast? = some '/' then base ++ p
  else base ++ '/' :: p

def sPromptsSlash : Str := "prompts/".toList

def sBlankPrompt : Str := "blankprompt.txt".toList

/-! ## Mode record decoding (main.rs lines 1759-1838) -/

/-- The per-entry body of the loop of `read_saved_modes`: decoding one
stored `mode_<N>` value into a `ChatModeConfig`.  `home` is the value
of `get_home_dir()`, `promptsDir` the value of `get_prompts_dir()`, and
`d` the value of `get_system_cpu_count()`; an entry with fewer than two
pipe-delimited parts is skipped (`none`). -/
def decodeModeEntry (home promptsDir : Str) (d : ℤ) (config_str : Str) :
    Option ChatModeConfig :=
  let parts := splitOnChar '|' config_str
  if parts.length < 2 then none
  else
    let p0 := parts.getD 0 []
    let p1 := parts.getD 1 []
    let model_path :=
      if isAbsolutePath p0 then p0 else home ++ '/' :: trimLeadingChar '/' p0
    let prompt_path :=
      if 1 < parts.length ∧ ¬strContains p1 '=' then
        if isAbsolutePath p1 then p1
        else joinPath promptsDir (trimLeadingChar '/' (trimLeadingStr sPromptsSlash p1))
      else joinPath promptsDir sBlankPrompt
    let nonParam := parts.filter (fun part => !strContains part '=')
    let name :=
      if 2 ≤ nonParam.length then nonParam.getD (nonParam.length - 2) [] else []
    let description :=
      if 2 ≤ nonParam.length then nonParam.getD (nonParam.length - 1) [] else []
    some { name := name
           description := description
           model_path := model_path
           prompt_path := prompt_path
           parameters := parse_parameters_from_parts d parts }

/-- `read_saved_modes` (main.rs lines 1759-1838) applied to the list of
raw `mode_<N>` values (the result of
`read_basename_fields_from_toml("mode")`): malformed entries are
skipped, the rest are decoded in order. -/
def read_saved_modes (home promptsDir : Str) (d : ℤ) (modeFields : List Str) :
    List ChatModeConfig :=
  modeFields.filterMap (decodeModeEntry home promptsDir d)

/-! ## Field Reader (main.rs lines 735-852 and 867-954) -/

def sModeBase : Str := "mode".toList

/-- One stored line of `read_basename_fields_from_toml`: the
`(numeric suffix, cleaned value)` pair pushed for the line, when any. -/
def basenameLinePair (pfx : Str) (line : Str) : Option (ℕ × Str) :=
  let t := trim line
  if t = [] ∨ t.headD ' ' = '#' then none
  else if pfx.isPrefixOf t then
    let beforeEq := (splitOnChar '=' t).getD 0 []
    if pfx.isPrefixOf (trim beforeEq) then
      match parseUsize ((trim beforeEq).drop pfx.length) with
      | none => none
      | some n =>
        match splitOnceChar '=' t with
        | none => none
        | some (_, v) =>
          let value := trim (trimCharBoth '"' (trim v))
          if value = [] then none else some (n, value)
    else none
  else none

/-- Stable sort of the `(number, value)` pairs by number
(Rust `sort_by_key`, which is stable; `List.insertionSort` with the
non-strict key order is also stable). -/
def sortPairs (l : List (ℕ × Str)) : List (ℕ × Str) :=
  l.insertionSort (fun a b => a.1 ≤ b.1)

/-- `read_basename_fields_from_toml` (main.rs lines 867-954) as a
function of the configuration text. -/
def read_basename_fields_from_toml (base : Str) (content : Str) : List Str :=
  if base = [] then []
  else
    let pfx := base ++ ['_']
    (sortPairs ((linesOf content).filterMap (basenameLinePair pfx))).map Prod.snd

/-- The line scan of `read_field_from_toml` (main.rs lines 787-852),
with the early returns of the loop made explicit. -/
def readFieldLoop (field : Str) : List Str → Str
  | [] => []
  | line :: rest =>
    if trim line = [] ∨ (trimLeft line).headD ' ' = '#' then readFieldLoop field rest
    else if field.isPrefixOf (trimLeft line) then
      match splitOnceChar '=' line with
      | none => readFieldLoop field rest
      | some (k, v) =>
        if trim k ≠ field then readFieldLoop field rest
        else if trim v = [] then []
        else
          let cleaned := trim (trimCharBoth '"' (trim (trim v)))
          if cleaned = [] then [] else cleaned
    else readFieldLoop field rest

/-- `read_field_from_toml` (main.rs lines 735-852) as a function of the
configuration text. -/
def read_field_from_toml (field : Str) (content : Str) : Str :=
  if field = [] then [] else readFieldLoop field (linesOf content)

/-! ## Mode record encoding and `save_mode_to_config`
(main.rs lines 2063-2126) -/

def sTempEq : Str := "temp=".toList

def sTopKEq : Str := "top_k=".toList

def sTopPEq : Str := "top_p=".toList

def sCtxSizeEq : Str := "ctx_size=".toList

def sThreadsEq : Str := "threads=".toList

def sGpuLayersEq : Str := "gpu_layers=".toList

def sInterFirstEq : Str := "interactive_first=".toList

/-- The text between the quotes of a written `mode_<N> = "..."` line:
`model|prompt|temp=..|top_k=..|top_p=..|ctx_size=..|threads=..|`
`gpu_layers=..|interactive_first=..|name|description`
(main.rs lines 2099-2117). -/
def encodeModeValue (m : ChatModeConfig) : Str :=
  m.model_path ++ '|' :: m.prompt_path
    ++ '|' :: sTempEq ++ formatF32 m.parameters.temperature_value
    ++ '|' :: sTopKEq ++ formatInt m.parameters.top_k_sampling
    ++ '|' :: sTopPEq ++ formatF32 m.parameters.top_p_sampling
    ++ '|' :: sCtxSizeEq ++ formatInt m.parameters.context_size
    ++ '|' :: sThreadsEq ++ formatInt m.parameters.thread_count
    ++ '|' :: sGpuLayersEq ++ formatInt m.parameters.gpu_layers
    ++ '|' :: sInterFirstEq ++ formatBool m.parameters.interactive_first
    ++ '|' :: m.name ++ '|' :: m.description

def sModeUnderscore : Str := "mode_".toList

def sDefaultMode : Str := "default_mode".toList

def sDefaultModeEq : Str := "default_mode = ".toList

def sModeHeaderStart : Str := "# Mode ".toList

def sSpaceDashSpace : Str := " - ".toList

def sEqQuote : Str := " = \"".toList

/-- The comment header line written before a new mode entry:
`# Mode <N> - <name> - <description>`. -/
def modeHeaderLine (n : ℕ) (m : ChatModeConfig) : Str :=
  sModeHeaderStart ++ formatNat n ++ sSpaceDashSpace ++ m.name
    ++ sSpaceDashSpace ++ m.description

/-- The written mode entry line: `mode_<N> = "<encoded value>"`. -/
def modeEntryLine (n : ℕ) (m : ChatModeConfig) : Str :=
  sModeUnderscore ++ formatNat n ++ sEqQuote ++ encodeModeValue m ++ ['"']

/-- `save_mode_to_config` (main.rs lines 2063-2126) as a pure function
from the current configuration text to the text written back.
`makeDefault` is the user's answer to the "make this the default mode?"
prompt. -/
def save_mode_to_config (content : Str) (m : ChatModeConfig) (makeDefault : Bool) : Str :=
  let modeCount := ((linesOf content).filter
    (fun line => sModeUnderscore.isPrefixOf line)).length
  let n := modeCount + 1
  let content1 :=
    if makeDefault then
      joinLines ((linesOf content).filter
        (fun line => !sDefaultMode.isPrefixOf line))
        ++ '\n' :: sDefaultModeEq ++ formatNat n ++ ['\n']
    else content
  content1 ++ '\n' :: modeHeaderLine n m ++ '\n' :: modeEntryLine n m ++ ['\n']

/-! ## Lemmas about the string primitives -/

theorem strContains_iff {s : Str} {c : Char} : strContains s c = true ↔ c ∈ s := by
  simp [strContains]

theorem strContains_eq_false {s : Str} {c : Char} :
    strContains s c = false ↔ c ∉ s := by
  rw [← strContains_iff]
  simp

theorem consFirst_ne_nil {x : Char} {L : List Str} : consFirst x L ≠ [] := by
  cases L <;> simp [consFirst]

theorem consFirst_append {x : Char} {L M : List Str} (h : L ≠ []) :
    consFirst x (L ++ M) = consFirst x L ++ M := by
  cases L with
  | nil => exact absurd rfl h
  | cons s rest => simp [consFirst]

theorem splitOnChar_ne_nil {c : Char} {s : Str} : splitOnChar c s ≠ [] := by
  induction s with
  | nil => simp [splitOnChar]
  | cons x xs ih =>
    by_cases hx : x = c <;> simp [splitOnChar, hx, consFirst_ne_nil]

theorem splitOnChar_append_cons (c : Char) (a b : Str) :
    splitOnChar c (a ++ c :: b) = splitOnChar c a ++ splitOnChar c b := by
  induction a with
  | nil => simp [splitOnChar]
  | cons x xs ih =>
    by_cases hx : x = c
    · simp [splitOnChar, hx, ih]
    · simp only [List.cons_append, splitOnChar, if_neg hx, List.append_eq]
      rw [ih, consFirst_append splitOnChar_ne_nil]

theorem splitOnChar_of_not_mem {c : Char} {s : Str} (h : c ∉ s) :
    splitOnChar c s = [s] := by
  induction s with
  | nil => simp [splitOnChar]
  | cons x xs ih =>
    simp only [List.mem_cons, not_or] at h
    simp [splitOnChar, Ne.symm h.1, ih h.2, consFirst]

theorem mem_splitOnChar_not_mem {c : Char} {s : Str} :
    ∀ piece ∈ splitOnChar c s, c ∉ piece := by
  induction s with
  | nil => simp [splitOnChar]
  | cons x xs ih =>
    intro piece hp
    by_cases hx : x = c
    · simp only [splitOnChar, if_pos hx, List.mem_cons] at hp
      rcases hp with rfl | hp
      · simp
      · exact ih piece hp
    · simp only [splitOnChar, if_neg hx] at hp
      rcases hsplit : splitOnChar c xs with _ | ⟨s0, rest⟩
      · exact absurd hsplit splitOnChar_ne_nil
      · rw [hsplit, consFirst] at hp
        rcases List.mem_cons.mp hp with rfl | hp
        · intro hmem
          rcases List.mem_cons.mp hmem with rfl | hmem
          · exact hx rfl
          · exact ih s0 (by rw [hsplit]; exact List.mem_cons_self s0 rest) hmem
        · exact ih piece (by rw [hsplit]; exact List.mem_cons_of_mem s0 hp)

theorem splitOnChar_joinSep {c : Char} {L : List Str} (hne : L ≠ [])
    (hfree : ∀ piece ∈ L, c ∉ piece) :
    splitOnChar c (joinSep c L) = L := by
  induction L with
  | nil => exact absurd rfl hne
  | cons s rest ih =>
    cases rest with
    | nil => exact splitOnChar_of_not_mem (hfree s (by simp))
    | cons t rest' =>
      have : joinSep c (s :: t :: rest') = s ++ c :: joinSep c (t :: rest') := rfl
      rw [this, splitOnChar_append_cons,
        splitOnChar_of_not_mem (hfree s (by simp)),
        ih (by simp) (fun piece hp => hfree piece (List.mem_cons_of_mem s hp))]
      rfl

theorem splitOnceChar_eq_none {c : Char} {s : Str} :
    splitOnceChar c s = none ↔ c ∉ s := by
  induction s with
  | nil => simp [splitOnceChar]
  | cons x xs ih =>
    by_cases hx : x = c
    · subst hx
      simp [splitOnceChar]
    · simp [splitOnceChar, hx, ih, Ne.symm hx]

theorem splitOnceChar_eq_some {c : Char} {s k v : Str}
    (h : splitOnceChar c s = some (k, v)) : s = k ++ c :: v ∧ c ∉ k := by
  induction s generalizing k v with
  | nil => simp [splitOnceChar] at h
  | cons x xs ih =>
    rw [splitOnceChar] at h
    by_cases hx : x = c
    · rw [if_pos hx] at h
      simp only [Option.some.injEq, Prod.mk.injEq] at h
      constructor
      · rw [← h.1, ← h.2, hx]
        rfl
      · rw [← h.1]
        simp
    · rw [if_neg hx] at h
      simp only [Option.map_eq_some'] at h
      rcases h with ⟨⟨k', v'⟩, hk', heq⟩
      simp only [Prod.mk.injEq] at heq
      rcases ih hk' with ⟨hxs, hmem⟩
      constructor
      · rw [← heq.1, ← heq.2, hxs]
        rfl
      · rw [← heq.1]
        intro hc
        rcases List.mem_cons.mp hc with rfl | hc
        · exact hx rfl
        · exact hmem hc

theorem splitOnceChar_append {c : Char} {k v : Str} (h : c ∉ k) :
    splitOnceChar c (k ++ c :: v) = some (k, v) := by
  induction k with
  | nil => simp [splitOnceChar]
  | cons x xs ih =>
    simp only [List.mem_cons, not_or] at h
    simp [splitOnceChar, Ne.symm h.1, h.1, ih h.2]

/-! ## Lemmas about digits and number formatting -/

/-- Value of a little-endian digit list (helper for `digitsVal` facts). -/
def valRev : List Char → ℕ
  | [] => 0
  | c :: cs => digitVal c + 10 * valRev cs

theorem digitChar_isDigit (d : ℕ) : (digitChar d).isDigit = true := by
  unfold digitChar
  split <;> decide

theorem isDigit_not_special {c : Char} (h : c.isDigit = true) :
    c ≠ '|' ∧ c ≠ '=' ∧ c ≠ '\n' ∧ c ≠ '\r' ∧ c ≠ '.' ∧ c ≠ '-' ∧ c ≠ '+' ∧
      c ≠ '/' ∧ c ≠ '"' ∧ c ≠ '#' ∧ c ≠ ' ' := by
  refine ⟨?_, ?_, ?_, ?_, ?_, ?_, ?_, ?_, ?_, ?_, ?_⟩ <;>
    (intro hc; rw [hc] at h; exact absurd h (by decide))

theorem digitVal_digitChar {d : ℕ} (h : d < 10) : digitVal (digitChar d) = d := by
  interval_cases d <;> decide

theorem natDigitsRevAux_spec :
    ∀ fuel n, n < fuel →
      natDigitsRevAux fuel n ≠ [] ∧
        (∀ c ∈ natDigitsRevAux fuel n, c.isDigit = true) ∧
        valRev (natDigitsRevAux fuel n) = n := by
  intro fuel
  induction fuel with
  | zero => intro n h; omega
  | succ f ih =>
    intro n h
    rw [natDigitsRevAux]
    by_cases h10 : n < 10
    · rw [if_pos h10]
      refine ⟨by simp, ?_, ?_⟩
      · intro c hc
        rw [List.mem_singleton] at hc
        rw [hc]
        exact digitChar_isDigit n
      · simp [valRev, digitVal_digitChar h10]
    · rw [if_neg h10]
      have hdivlt : n / 10 < n := Nat.div_lt_self (by omega) (by omega)
      obtain ⟨h1, h2, h3⟩ := ih (n / 10) (by omega)
      refine ⟨by simp, ?_, ?_⟩
      · intro c hc
        rcases List.mem_cons.mp hc with rfl | hc
        · exact digitChar_isDigit _
        · exact h2 c hc
      · rw [valRev, h3, digitVal_digitChar (Nat.mod_lt n (by omega))]
        omega

theorem natDigitsRev_spec (n : ℕ) :
    natDigitsRev n ≠ [] ∧ (∀ c ∈ natDigitsRev n, c.isDigit = true) ∧
      valRev (natDigitsRev n) = n :=
  natDigitsRevAux_spec (n + 1) n (by omega)

theorem digitsVal_append_singleton (a : Str) (c : Char) :
    digitsVal (a ++ [c]) = 10 * digitsVal a + digitVal c := by
  simp [digitsVal, List.foldl_append]

theorem digitsVal_reverse (r : List Char) : digitsVal r.reverse = valRev r := by
  induction r with
  | nil => rfl
  | cons c cs ih =>
    rw [List.reverse_cons, digitsVal_append_singleton, ih, valRev]
    omega

theorem formatNat_ne_nil (n : ℕ) : formatNat n ≠ [] := by
  rw [formatNat]
  simpa using (natDigitsRev_spec n).1

theorem formatNat_all_digit (n : ℕ) : ∀ c ∈ formatNat n, c.isDigit = true := by
  intro c hc
  rw [formatNat, List.mem_reverse] at hc
  exact (natDigitsRev_spec n).2.1 c hc

theorem digitsVal_formatNat (n : ℕ) : digitsVal (formatNat n) = n := by
  rw [formatNat, digitsVal_reverse]
  exact (natDigitsRev_spec n).2.2

theorem parseNatCore_formatNat (n : ℕ) : parseNatCore (formatNat n) = some n := by
  rw [parseNatCore, if_neg, if_pos, digitsVal_formatNat]
  · rw [List.all_eq_true]
    intro c hc
    exact formatNat_all_digit n c hc
  · rw [List.isEmpty_iff]
    exact formatNat_ne_nil n

theorem length_padDigits (k : ℕ) : ∀ n, (padDigits k n).length = k := by
  induction k with
  | zero => intro n; rfl
  | succ kk ih => intro n; simp [padDigits, ih]

theorem padDigits_all_digit (k : ℕ) : ∀ n, ∀ c ∈ padDigits k n, c.isDigit = true := by
  induction k with
  | zero => intro n c hc; simp [padDigits] at hc
  | succ kk ih =>
    intro n c hc
    rw [padDigits, List.mem_append] at hc
    rcases hc with hc | hc
    · exact ih _ c hc
    · rw [List.mem_singleton] at hc
      rw [hc]
      exact digitChar_isDigit _

theorem digitsVal_padDigits (k : ℕ) : ∀ n, n < 10 ^ k → digitsVal (padDigits k n) = n := by
  induction k with
  | zero =>
    intro n h
    rw [pow_zero] at h
    interval_cases n
    rfl
  | succ kk ih =>
    intro n h
    have hten : (10 : ℕ) ^ (kk + 1) = 10 * 10 ^ kk := by ring
    have hdiv : n / 10 < 10 ^ kk := Nat.div_lt_of_lt_mul (by omega)
    rw [padDigits, digitsVal_append_singleton, ih _ hdiv,
      digitVal_digitChar (Nat.mod_lt n (by omega))]
    omega

theorem parseI32_bounds {s : Str} {v : ℤ} (h : parseI32 s = some v) :
    -(2 ^ 31) ≤ v ∧ v ≤ 2 ^ 31 - 1 := by
  rw [parseI32] at h
  split at h <;>
    · rw [Option.bind_eq_some] at h
      obtain ⟨n, _, hf⟩ := h
      split_ifs at hf
      rw [Option.some_inj] at hf
      omega

theorem parseI32_formatInt {v : ℤ} (h1 : -(2 ^ 31) ≤ v) (h2 : v ≤ 2 ^ 31 - 1) :
    parseI32 (formatInt v) = some v := by
  by_cases hv : v < 0
  · have hhead : (formatInt v).headD ' ' = '-' := by
      rw [formatInt, if_pos hv]
      rfl
    have hdrop : (formatInt v).drop 1 = formatNat v.natAbs := by
      rw [formatInt, if_pos hv]
      rfl
    rw [parseI32, if_pos hhead, hdrop, parseNatCore_formatNat, Option.some_bind,
      if_pos (by omega), Option.some_inj]
    omega
  · have hd : ∀ c ∈ formatNat v.natAbs, c.isDigit = true := formatNat_all_digit _
    have hne : formatNat v.natAbs ≠ [] := formatNat_ne_nil _
    have hhead : ∃ c cs, formatNat v.natAbs = c :: cs ∧ c.isDigit = true := by
      rcases hfn : formatNat v.natAbs with _ | ⟨c, cs⟩
      · exact absurd hfn hne
      · exact ⟨c, cs, rfl, hd c (by rw [hfn]; exact List.mem_cons_self c cs)⟩
    obtain ⟨c, cs, hfn, hcd⟩ := hhead
    have hform : formatInt v = formatNat v.natAbs := by
      rw [formatInt, if_neg hv]
    have hnotminus : (formatInt v).headD ' ' ≠ '-' := by
      rw [hform, hfn]
      exact (isDigit_not_special hcd).2.2.2.2.2.1
    have hnotplus : (formatInt v).headD ' ' ≠ '+' := by
      rw [hform, hfn]
      exact (isDigit_not_special hcd).2.2.2.2.2.2.1
    rw [parseI32, if_neg hnotminus, if_neg hnotplus, hform, parseNatCore_formatNat,
      Option.some_bind, if_pos (by omega), Option.some_inj]
    omega

theorem parseBoolStr_formatBool (b : Bool) : parseBoolStr (formatBool b) = some b := by
  cases b <;> rfl

/-! ## Round-trip of the decimal `f32` model -/

theorem exists_pow_ten_exp {den L : ℕ} (h : den ∣ 10 ^ L) :
    ∃ k, k ≤ den ∧ den ∣ 10 ^ k := by
  have h10 : (10 : ℕ) ^ L = 2 ^ L * 5 ^ L := by
    rw [show (10 : ℕ) = 2 * 5 from rfl, mul_pow]
  rw [h10] at h
  obtain ⟨y, z, hy, hz, hyz⟩ := Nat.dvd_mul.mp h
  obtain ⟨a, _, rfl⟩ := (Nat.dvd_prime_pow Nat.prime_two).mp hy
  obtain ⟨b, _, rfl⟩ := (Nat.dvd_prime_pow (by norm_num : Nat.Prime 5)).mp hz
  subst hyz
  refine ⟨max a b, ?_, ?_⟩
  · have h2a : a < 2 ^ a := Nat.lt_two_pow a
    have h2b : b < 2 ^ b := Nat.lt_two_pow b
    have h25 : (2 : ℕ) ^ b ≤ 5 ^ b := Nat.pow_le_pow_left (by norm_num) b
    have h5pos : 1 ≤ (5 : ℕ) ^ b := Nat.one_le_pow b 5 (by norm_num)
    have h2pos : 1 ≤ (2 : ℕ) ^ a := Nat.one_le_pow a 2 (by norm_num)
    have ha : a < 2 ^ a * 5 ^ b := lt_of_lt_of_le h2a (Nat.le_mul_of_pos_right _ (by omega))
    have hb : b < 2 ^ a * 5 ^ b :=
      lt_of_lt_of_le (lt_of_lt_of_le h2b h25) (Nat.le_mul_of_pos_left _ (by omega))
    omega
  · have hmax : (10 : ℕ) ^ max a b = 2 ^ max a b * 5 ^ max a b := by
      rw [show (10 : ℕ) = 2 * 5 from rfl, mul_pow]
    rw [hmax]
    exact mul_dvd_mul (pow_dvd_pow 2 (le_max_left a b)) (pow_dvd_pow 5 (le_max_right a b))

theorem decExp_eq_some_of_dvd {den L : ℕ} (h : den ∣ 10 ^ L) :
    ∃ k, decExp den = some k ∧ den ∣ 10 ^ k := by
  obtain ⟨k0, hk0le, hk0⟩ := exists_pow_ten_exp h
  have hsome : (decExp den).isSome := by
    rw [decExp, List.find?_isSome]
    exact ⟨k0, List.mem_range.mpr (by omega), decide_eq_true hk0⟩
  obtain ⟨k, hk⟩ := Option.isSome_iff_exists.mp hsome
  refine ⟨k, hk, ?_⟩
  rw [decExp] at hk
  have hp := List.find?_some (p := fun j => decide (den ∣ 10 ^ j)) (a := k) hk
  simpa using hp

theorem headD_append_of_ne_nil {a b : Str} (h : a ≠ []) :
    (a ++ b).headD ' ' = a.headD ' ' := by
  cases a with
  | nil => exact absurd rfl h
  | cons x xs => rfl

theorem formatNat_headD_isDigit (n : ℕ) : ((formatNat n).headD ' ').isDigit = true := by
  rcases hfn : formatNat n with _ | ⟨c, cs⟩
  · exact absurd hfn (formatNat_ne_nil n)
  · exact formatNat_all_digit n c (by rw [hfn]; exact List.mem_cons_self c cs)

theorem parsePosF_digits {ds : Str} (hne : ds ≠ []) (hd : ∀ c ∈ ds, c.isDigit = true) :
    parsePosF ds = some ((digitsVal ds : ℚ)) := by
  have htake : ds.takeWhile Char.isDigit = ds := List.takeWhile_eq_self_iff.mpr hd
  have hdrop : ds.dropWhile Char.isDigit = [] := List.dropWhile_eq_nil_iff.mpr hd
  rw [parsePosF]
  simp only [htake, hdrop]
  rw [if_neg]
  rw [List.isEmpty_iff]
  exact hne

theorem parsePosF_point {ds fs : Str} (hdne : ds ≠ []) (hd : ∀ c ∈ ds, c.isDigit = true)
    (hf : ∀ c ∈ fs, c.isDigit = true) :
    parsePosF (ds ++ '.' :: fs) =
      some ((digitsVal ds : ℚ) + (digitsVal fs : ℚ) / (10 : ℚ) ^ fs.length) := by
  have htake : (ds ++ '.' :: fs).takeWhile Char.isDigit = ds := by
    rw [List.takeWhile_append_of_pos hd, List.takeWhile_cons_of_neg, List.append_nil]
    decide
  have hdrop : (ds ++ '.' :: fs).dropWhile Char.isDigit = '.' :: fs := by
    rw [List.dropWhile_append_of_pos hd, List.dropWhile_cons_of_neg]
    decide
  rw [parsePosF]
  simp only [htake, hdrop]
  rw [if_pos]
  exact ⟨List.all_eq_true.mpr hf, Or.inl hdne⟩

theorem parseF32_not_sign {s : Str} (h0 : s.headD ' ' ≠ '-') (h1 : s.headD ' ' ≠ '+') :
    parseF32 s = parsePosF s := by
  rw [parseF32, if_neg h0, if_neg h1]

theorem parseF32_neg_cons (r : Str) :
    parseF32 ('-' :: r) = (parsePosF r).map (fun q => -q) := by
  simp [parseF32]

theorem parsePosF_den_dvd {s : Str} {q : ℚ} (h : parsePosF s = some q) :
    ∃ L, q.den ∣ 10 ^ L := by
  rw [parsePosF] at h
  split at h
  · split_ifs at h
    rw [Option.some_inj] at h
    refine ⟨0, ?_⟩
    rw [← h]
    simp
  · split_ifs at h
    rw [Option.some_inj] at h
    rename_i frac _ _
    set a := digitsVal (s.takeWhile Char.isDigit)
    set b := digitsVal frac
    set L := frac.length
    refine ⟨L, ?_⟩
    have hten : ((10 : ℚ) ^ L) ≠ 0 := by positivity
    have hval : (a : ℚ) + (b : ℚ) / (10 : ℚ) ^ L =
        (((a * 10 ^ L + b : ℕ) : ℤ) : ℚ) / (((10 ^ L : ℕ) : ℤ) : ℚ) := by
      push_cast
      field_simp
    have hdvd := Rat.den_dvd ((a * 10 ^ L + b : ℕ) : ℤ) ((10 ^ L : ℕ) : ℤ)
    rw [Rat.divInt_eq_div, ← hval, h] at hdvd
    exact_mod_cast hdvd
  · exact absurd h (by simp)

theorem parseF32_den_dvd {s : Str} {q : ℚ} (h : parseF32 s = some q) :
    ∃ L, q.den ∣ 10 ^ L := by
  rw [parseF32] at h
  split_ifs at h
  · rw [Option.map_eq_some'] at h
    obtain ⟨q', hq', rfl⟩ := h
    rw [Rat.den_neg_eq_den]
    exact parsePosF_den_dvd hq'
  · exact parsePosF_den_dvd h
  · exact parsePosF_den_dvd h

theorem formatF32_eq_of_decExp {q : ℚ} {k : ℕ} (hk : decExp q.den = some k) :
    formatF32 q =
      (if q.num < 0 then ['-'] else []) ++
        (if k = 0 then formatNat (q.num.natAbs * 10 ^ k / q.den)
         else formatNat ((q.num.natAbs * 10 ^ k / q.den) / 10 ^ k) ++
           '.' :: padDigits k ((q.num.natAbs * 10 ^ k / q.den) % 10 ^ k)) := by
  simp only [formatF32, hk]
  by_cases hneg : q.num < 0 <;> simp [hneg]

theorem formatF32_round {q : ℚ} {L : ℕ} (hL : q.den ∣ 10 ^ L) :
    parseF32 (formatF32 q) = some q := by
  obtain ⟨k, hk, hdvd⟩ := decExp_eq_some_of_dvd hL
  have hdenpos : 0 < q.den := q.pos
  have hdenQ : ((q.den : ℚ)) ≠ 0 := by exact_mod_cast hdenpos.ne'
  rw [formatF32_eq_of_decExp hk]
  set m := q.num.natAbs with hm
  set n := m * 10 ^ k / q.den with hndef
  have hdvd_m : q.den ∣ m * 10 ^ k := hdvd.mul_left m
  have hn : n * q.den = m * 10 ^ k := Nat.div_mul_cancel hdvd_m
  by_cases hk0 : k = 0
  · subst hk0
    have hden1 : q.den = 1 := Nat.dvd_one.mp (by simpa using hdvd)
    have hn_eq : n = m := by
      rw [hndef, hden1]
      simp
    rw [if_pos rfl]
    have hpos : parsePosF (formatNat n) = some ((n : ℚ)) := by
      rw [parsePosF_digits (formatNat_ne_nil n) (formatNat_all_digit n), digitsVal_formatNat]
    have hq' : ((q.num : ℚ)) = q := by
      have hq := Rat.num_div_den q
      rw [hden1] at hq
      simpa using hq
    by_cases hneg : q.num < 0
    · rw [if_pos hneg, List.singleton_append, parseF32_neg_cons, hpos,
        Option.map_some', Option.some_inj]
      have hnum : ((q.num : ℚ)) = -((n : ℚ)) := by
        have hz : q.num = -((n : ℤ)) := by
          rw [hn_eq, hm]
          omega
        rw [hz]
        push_cast
        ring
      exact (hnum.symm).trans hq'
    · rw [if_neg hneg, List.nil_append]
      have hhead := formatNat_headD_isDigit n
      have hns := isDigit_not_special hhead
      rw [parseF32_not_sign hns.2.2.2.2.2.1 hns.2.2.2.2.2.2.1, hpos, Option.some_inj]
      have hnum : ((q.num : ℚ)) = ((n : ℚ)) := by
        have hz : q.num = ((n : ℤ)) := by
          rw [hn_eq, hm]
          omega
        rw [hz]
        push_cast
        ring
      exact (hnum.symm).trans hq'
  · rw [if_neg hk0]
    have hmodlt : n % 10 ^ k < 10 ^ k := Nat.mod_lt n (by positivity)
    have hdigits_ne : formatNat (n / 10 ^ k) ≠ [] := formatNat_ne_nil _
    have hpoint := parsePosF_point hdigits_ne (formatNat_all_digit (n / 10 ^ k))
      (padDigits_all_digit k (n % 10 ^ k))
    rw [digitsVal_formatNat, digitsVal_padDigits k _ hmodlt, length_padDigits] at hpoint
    have hten : ((10 : ℚ) ^ k) ≠ 0 := by positivity
    have hsplit : ((n / 10 ^ k : ℕ) : ℚ) * (10 : ℚ) ^ k + ((n % 10 ^ k : ℕ) : ℚ) = (n : ℚ) := by
      have hnat : (n / 10 ^ k) * 10 ^ k + n % 10 ^ k = n := by
        rw [mul_comm]
        exact Nat.div_add_mod n (10 ^ k)
      exact_mod_cast hnat
    have hnQ : (n : ℚ) * ((q.den : ℚ)) = (m : ℚ) * (10 : ℚ) ^ k := by
      exact_mod_cast hn
    have hval : ((n / 10 ^ k : ℕ) : ℚ) + ((n % 10 ^ k : ℕ) : ℚ) / (10 : ℚ) ^ k =
        (m : ℚ) / ((q.den : ℚ)) := by
      have h1 : ((n / 10 ^ k : ℕ) : ℚ) + ((n % 10 ^ k : ℕ) : ℚ) / (10 : ℚ) ^ k =
          (((n / 10 ^ k : ℕ) : ℚ) * (10 : ℚ) ^ k + ((n % 10 ^ k : ℕ) : ℚ)) / (10 : ℚ) ^ k := by
        rw [eq_div_iff hten, add_mul, div_mul_cancel₀ _ hten]
      rw [h1, hsplit, div_eq_div_iff hten hdenQ]
      exact hnQ
    rw [hval] at hpoint
    by_cases hneg : q.num < 0
    · rw [if_pos hneg, List.singleton_append, parseF32_neg_cons, hpoint,
        Option.map_some', Option.some_inj]
      have hq := Rat.num_div_den q
      have hnum : ((q.num : ℚ)) / ((q.den : ℚ)) = -((m : ℚ) / ((q.den : ℚ))) := by
        have hz : q.num = -((m : ℤ)) := by
          rw [hm]
          omega
        rw [hz]
        push_cast
        ring
      exact (hnum.symm).trans hq
    · rw [if_neg hneg, List.nil_append]
      have hhead : ((formatNat (n / 10 ^ k) ++
          '.' :: padDigits k (n % 10 ^ k)).headD ' ').isDigit = true := by
        rw [headD_append_of_ne_nil hdigits_ne]
        exact formatNat_headD_isDigit _
      have hns := isDigit_not_special hhead
      rw [parseF32_not_sign hns.2.2.2.2.2.1 hns.2.2.2.2.2.2.1, hpoint, Option.some_inj]
      have hq := Rat.num_div_den q
      have hnum : ((q.num : ℚ)) / ((q.den : ℚ)) = ((m : ℚ)) / ((q.den : ℚ)) := by
        have hz : q.num = ((m : ℤ)) := by
          rw [hm]
          omega
        rw [hz]
        push_cast
        ring
      exact (hnum.symm).trans hq

theorem parseF32_formatF32 {s : Str} {q : ℚ} (h : parseF32 s = some q) :
    parseF32 (formatF32 q) = some q := by
  obtain ⟨L, hL⟩ := parseF32_den_dvd h
  exact formatF32_round hL

/-! ## Lemmas about parameter-token processing -/

theorem stepParam_no_eq {part : Str} (d : ℤ) (p : LlamaCppParameters)
    (h : splitOnceChar '=' part = none) : stepParam d p part = p := by
  simp [stepParam, h]

/-- A `key=value` token that the loop of `parse_parameters_from_parts`
drops: an unknown key, or a value the corresponding `parse` rejects. -/
def isDroppedParamToken (part : Str) : Bool :=
  match splitOnceChar '=' part with
  | none => false
  | some (k, v) =>
    if k = kTemp then (parseF32 v).isNone
    else if k = kTopK then (parseI32 v).isNone
    else if k = kTopP then (parseF32 v).isNone
    else if k = kCtxSize then (parseI32 v).isNone
    else if k = kThreads then (parseI32 v).isNone
    else if k = kGpuLayers then (parseI32 v).isNone
    else if k = kInterFirst then (parseBoolStr v).isNone
    else true

theorem stepParam_of_dropped {part : Str} (d : ℤ) (p : LlamaCppParameters)
    (h : isDroppedParamToken part = true) : stepParam d p part = p := by
  cases hsp : splitOnceChar '=' part with
  | none => exact stepParam_no_eq d p hsp
  | some kv =>
    obtain ⟨k, v⟩ := kv
    rw [isDroppedParamToken, hsp] at h
    dsimp only at h
    simp only [stepParam, hsp]
    split_ifs at h with e1 e2 e3 e4 e5 e6 e7 <;>
      simp_all [Option.isNone_iff_eq_none]

theorem stepParam_head_slash {part : Str} (d : ℤ) (p : LlamaCppParameters)
    (h : part.headD ' ' = '/') : stepParam d p part = p := by
  cases hsp : splitOnceChar '=' part with
  | none => exact stepParam_no_eq d p hsp
  | some kv =>
    obtain ⟨k, v⟩ := kv
    obtain ⟨heq, -⟩ := splitOnceChar_eq_some hsp
    have hkhead : ∀ c : Char, k.headD c = part.headD c ∨ k = [] := by
      intro c
      cases k with
      | nil => exact Or.inr rfl
      | cons x xs =>
        left
        rw [heq]
        rfl
    simp only [stepParam, hsp]
    rcases hkhead ' ' with hkh | hknil
    · rw [h] at hkh
      have hne : ∀ key : Str, key.headD ' ' ≠ '/' → k ≠ key := by
        intro key hkey hcontra
        rw [hcontra] at hkh
        exact hkey hkh
      rw [if_neg (hne kTemp (by decide)), if_neg (hne kTopK (by decide)),
        if_neg (hne kTopP (by decide)), if_neg (hne kCtxSize (by decide)),
        if_neg (hne kThreads (by decide)), if_neg (hne kGpuLayers (by decide)),
        if_neg (hne kInterFirst (by decide))]
    · subst hknil
      rw [if_neg (by decide), if_neg (by decide), if_neg (by decide),
        if_neg (by decide), if_neg (by decide), if_neg (by decide),
        if_neg (by decide)]

theorem stepParam_temp (d : ℤ) (p : LlamaCppParameters) (v : Str) :
    stepParam d p (kTemp ++ '=' :: v) =
      match parseF32 v with
      | some x => { p with temperature_value := x }
      | none => p := by
  simp only [stepParam, splitOnceChar_append (show ('=') ∉ kTemp by decide)]
  simp

theorem stepParam_topk (d : ℤ) (p : LlamaCppParameters) (v : Str) :
    stepParam d p (kTopK ++ '=' :: v) =
      match parseI32 v with
      | some x => { p with top_k_sampling := x }
      | none => p := by
  simp only [stepParam, splitOnceChar_append (show ('=') ∉ kTopK by decide)]
  simp [(show kTopK ≠ kTemp by decide)]

theorem stepParam_topp (d : ℤ) (p : LlamaCppParameters) (v : Str) :
    stepParam d p (kTopP ++ '=' :: v) =
      match parseF32 v with
      | some x => { p with top_p_sampling := x }
      | none => p := by
  simp only [stepParam, splitOnceChar_append (show ('=') ∉ kTopP by decide)]
  simp [(show kTopP ≠ kTemp by decide), (show kTopP ≠ kTopK by decide)]

theorem stepParam_ctx (d : ℤ) (p : LlamaCppParameters) (v : Str) :
    stepParam d p (kCtxSize ++ '=' :: v) =
      match parseI32 v with
      | some x => { p with context_size := x }
      | none => p := by
  simp only [stepParam, splitOnceChar_append (show ('=') ∉ kCtxSize by decide)]
  simp [(show kCtxSize ≠ kTemp by decide), (show kCtxSize ≠ kTopK by decide), (show kCtxSize ≠ kTopP by decide)]

theorem stepParam_threads (d : ℤ) (p : LlamaCppParameters) (v : Str) :
    stepParam d p (kThreads ++ '=' :: v) =
      match parseI32 v with
      | some x => { p with thread_count := validate_thread_count d x }
      | none => p := by
  simp only [stepParam, splitOnceChar_append (show ('=') ∉ kThreads by decide)]
  simp [(show kThreads ≠ kTemp by decide), (show kThreads ≠ kTopK by decide), (show kThreads ≠ kTopP by decide), (show kThreads ≠ kCtxSize by decide)]

theorem stepParam_gpu (d : ℤ) (p : LlamaCppParameters) (v : Str) :
    stepParam d p (kGpuLayers ++ '=' :: v) =
      match parseI32 v with
      | some x => { p with gpu_layers := x }
      | none => p := by
  simp only [stepParam, splitOnceChar_append (show ('=') ∉ kGpuLayers by decide)]
  simp [(show kGpuLayers ≠ kTemp by decide), (show kGpuLayers ≠ kTopK by decide), (show kGpuLayers ≠ kTopP by decide), (show kGpuLayers ≠ kCtxSize by decide), (show kGpuLayers ≠ kThreads by decide)]

theorem stepParam_inter (d : ℤ) (p : LlamaCppParameters) (v : Str) :
    stepParam d p (kInterFirst ++ '=' :: v) =
      match parseBoolStr v with
      | some x => { p with interactive_first := x }
      | none => p := by
  simp only [stepParam, splitOnceChar_append (show ('=') ∉ kInterFirst by decide)]
  simp [(show kInterFirst ≠ kTemp by decide), (show kInterFirst ≠ kTopK by decide), (show kInterFirst ≠ kTopP by decide), (show kInterFirst ≠ kCtxSize by decide), (show kInterFirst ≠ kThreads by decide), (show kInterFirst ≠ kGpuLayers by decide)]

theorem validate_thread_count_mem {d : ℤ} (hd : 1 ≤ d) (v : ℤ) :
    1 ≤ validate_thread_count d v ∧ validate_thread_count d v ≤ d + 1 := by
  rw [validate_thread_count]
  split_ifs <;> omega

theorem validate_thread_count_id {d v : ℤ} (h1 : 1 ≤ v) (h2 : v ≤ d + 1) :
    validate_thread_count d v = v := by
  rw [validate_thread_count]
  split_ifs <;> omega

/-- Invariant of every parameter record that
`parse_parameters_from_parts` can produce: the float fields have finite
decimal expansions, the plain `i32` fields are in `i32` range, and the
thread count has been clamped into `[1, d + 1]`. -/
def ParamsInv (d : ℤ) (p : LlamaCppParameters) : Prop :=
  (∃ L, p.temperature_value.den ∣ 10 ^ L) ∧
    (∃ L, p.top_p_sampling.den ∣ 10 ^ L) ∧
    (-(2 ^ 31) ≤ p.top_k_sampling ∧ p.top_k_sampling ≤ 2 ^ 31 - 1) ∧
    (-(2 ^ 31) ≤ p.context_size ∧ p.context_size ≤ 2 ^ 31 - 1) ∧
    (-(2 ^ 31) ≤ p.gpu_layers ∧ p.gpu_layers ≤ 2 ^ 31 - 1) ∧
    (1 ≤ p.thread_count ∧ p.thread_count ≤ d + 1)

theorem den_dvd_of_eq_div {q : ℚ} {a b : ℤ} (h : q = (a : ℚ) / (b : ℚ)) :
    ((q.den : ℤ)) ∣ b := by
  have hd := Rat.den_dvd a b
  rw [Rat.divInt_eq_div, ← h] at hd
  exact hd

theorem den_08_dvd : (0.8 : ℚ).den ∣ 10 ^ 1 := by
  have hd := den_dvd_of_eq_div (q := (0.8 : ℚ)) (a := 8) (b := 10) (by norm_num)
  have h2 : ((0.8 : ℚ).den : ℤ) ∣ ((10 ^ 1 : ℕ) : ℤ) := by simpa using hd
  exact_mod_cast h2

theorem den_09_dvd : (0.9 : ℚ).den ∣ 10 ^ 1 := by
  have hd := den_dvd_of_eq_div (q := (0.9 : ℚ)) (a := 9) (b := 10) (by norm_num)
  have h2 : ((0.9 : ℚ).den : ℤ) ∣ ((10 ^ 1 : ℕ) : ℤ) := by simpa using hd
  exact_mod_cast h2

theorem paramsInv_default {d : ℤ} (hd : 1 ≤ d) : ParamsInv d (defaultParams d) := by
  refine ⟨⟨1, ?_⟩, ⟨1, ?_⟩, ⟨?_, ?_⟩, ⟨?_, ?_⟩, ⟨?_, ?_⟩, ?_, ?_⟩
  · exact den_08_dvd
  · exact den_09_dvd
  · exact (by decide : -(2 ^ 31 : ℤ) ≤ 40)
  · exact (by decide : (40 : ℤ) ≤ 2 ^ 31 - 1)
  · exact (by decide : -(2 ^ 31 : ℤ) ≤ 2000)
  · exact (by decide : (2000 : ℤ) ≤ 2 ^ 31 - 1)
  · exact (by decide : -(2 ^ 31 : ℤ) ≤ 0)
  · exact (by decide : (0 : ℤ) ≤ 2 ^ 31 - 1)
  · exact hd
  · exact (by omega : d ≤ d + 1)

theorem paramsInv_step {d : ℤ} (hd : 1 ≤ d) (p : LlamaCppParameters) (part : Str)
    (hp : ParamsInv d p) : ParamsInv d (stepParam d p part) := by
  obtain ⟨hT, hP, hK, hC, hG, hTh⟩ := hp
  cases hsp : splitOnceChar '=' part with
  | none => rw [stepParam_no_eq d p hsp]; exact ⟨hT, hP, hK, hC, hG, hTh⟩
  | some kv =>
    obtain ⟨k, v⟩ := kv
    simp only [stepParam, hsp]
    split_ifs
    · cases hv : parseF32 v with
      | none => exact ⟨hT, hP, hK, hC, hG, hTh⟩
      | some x => exact ⟨parseF32_den_dvd hv, hP, hK, hC, hG, hTh⟩
    · cases hv : parseI32 v with
      | none => exact ⟨hT, hP, hK, hC, hG, hTh⟩
      | some x => exact ⟨hT, hP, parseI32_bounds hv, hC, hG, hTh⟩
    · cases hv : parseF32 v with
      | none => exact ⟨hT, hP, hK, hC, hG, hTh⟩
      | some x => exact ⟨hT, parseF32_den_dvd hv, hK, hC, hG, hTh⟩
    · cases hv : parseI32 v with
      | none => exact ⟨hT, hP, hK, hC, hG, hTh⟩
      | some x => exact ⟨hT, hP, hK, parseI32_bounds hv, hG, hTh⟩
    · cases hv : parseI32 v with
      | none => exact ⟨hT, hP, hK, hC, hG, hTh⟩
      | some x => exact ⟨hT, hP, hK, hC, hG, validate_thread_count_mem hd x⟩
    · cases hv : parseI32 v with
      | none => exact ⟨hT, hP, hK, hC, hG, hTh⟩
      | some x => exact ⟨hT, hP, hK, hC, parseI32_bounds hv, hTh⟩
    · cases hv : parseBoolStr v with
      | none => exact ⟨hT, hP, hK, hC, hG, hTh⟩
      | some x => exact ⟨hT, hP, hK, hC, hG, hTh⟩
    · exact ⟨hT, hP, hK, hC, hG, hTh⟩

theorem paramsInv_foldl {d : ℤ} (hd : 1 ≤ d) (parts : List Str)
    (p : LlamaCppParameters) (hp : ParamsInv d p) :
    ParamsInv d (List.foldl (stepParam d) p parts) := by
  induction parts generalizing p with
  | nil => exact hp
  | cons part rest ih => exact ih _ (paramsInv_step hd p part hp)

theorem paramsInv_parse_parameters {d : ℤ} (hd : 1 ≤ d) (parts : List Str) :
    ParamsInv d (parse_parameters_from_parts d parts) :=
  paramsInv_foldl hd parts _ (paramsInv_default hd)

/-! ## Character classes of the formatted output -/

theorem mem_formatInt {c : Char} {v : ℤ} (h : c ∈ formatInt v) :
    c.isDigit = true ∨ c = '-' := by
  rw [formatInt] at h
  split_ifs at h
  · rcases List.mem_cons.mp h with rfl | h
    · exact Or.inr rfl
    · exact Or.inl (formatNat_all_digit _ _ h)
  · exact Or.inl (formatNat_all_digit _ _ h)

theorem mem_formatF32 {c : Char} {q : ℚ} (h : c ∈ formatF32 q) :
    c.isDigit = true ∨ c = '-' ∨ c = '.' := by
  rw [formatF32] at h
  split at h
  · dsimp only at h
    split_ifs at h
    · rcases List.mem_cons.mp h with rfl | h
      · exact Or.inr (Or.inl rfl)
      · exact Or.inl (formatNat_all_digit _ _ h)
    · rcases List.mem_cons.mp h with rfl | h
      · exact Or.inr (Or.inl rfl)
      · rcases List.mem_append.mp h with h | h
        · exact Or.inl (formatNat_all_digit _ _ h)
        · rcases List.mem_cons.mp h with rfl | h
          · exact Or.inr (Or.inr rfl)
          · exact Or.inl (padDigits_all_digit _ _ _ h)
    · exact Or.inl (formatNat_all_digit _ _ h)
    · rcases List.mem_append.mp h with h | h
      · exact Or.inl (formatNat_all_digit _ _ h)
      · rcases List.mem_cons.mp h with rfl | h
        · exact Or.inr (Or.inr rfl)
        · exact Or.inl (padDigits_all_digit _ _ _ h)
  · rw [List.mem_singleton] at h
    rw [h]
    exact Or.inl (by decide)

theorem mem_formatBool {c : Char} {b : Bool} (h : c ∈ formatBool b) :
    c = 't' ∨ c = 'r' ∨ c = 'u' ∨ c = 'e' ∨ c = 'f' ∨ c = 'a' ∨ c = 'l' ∨ c = 's' := by
  cases b <;> simp [formatBool] at h <;> tauto

theorem mem_joinSep {c sep : Char} {L : List Str} (h : c ∈ joinSep sep L) :
    c = sep ∨ ∃ piece ∈ L, c ∈ piece := by
  induction L with
  | nil => simp [joinSep] at h
  | cons a rest ih =>
    cases rest with
    | nil => exact Or.inr ⟨a, by simp, h⟩
    | cons b rest' =>
      rw [show joinSep sep (a :: b :: rest') = a ++ sep :: joinSep sep (b :: rest') from rfl]
        at h
      rcases List.mem_append.mp h with h | h
      · exact Or.inr ⟨a, by simp, h⟩
      · rcases List.mem_cons.mp h with rfl | h
        · exact Or.inl rfl
        · rcases ih h with h | ⟨p, hp, hcp⟩
          · exact Or.inl h
          · exact Or.inr ⟨p, List.mem_cons_of_mem _ hp, hcp⟩

/-- The encoded mode value as an explicit `'|'`-joined list of pieces. -/
theorem encodeModeValue_eq (m : ChatModeConfig) :
    encodeModeValue m = joinSep '|'
      [m.model_path, m.prompt_path,
        sTempEq ++ formatF32 m.parameters.temperature_value,
        sTopKEq ++ formatInt m.parameters.top_k_sampling,
        sTopPEq ++ formatF32 m.parameters.top_p_sampling,
        sCtxSizeEq ++ formatInt m.parameters.context_size,
        sThreadsEq ++ formatInt m.parameters.thread_count,
        sGpuLayersEq ++ formatInt m.parameters.gpu_layers,
        sInterFirstEq ++ formatBool m.parameters.interactive_first,
        m.name, m.description] := by
  rw [encodeModeValue]
  simp [joinSep]

/-- Membership in the encoded value comes from a field of the record or
from one of the fixed pieces of the encoding. -/
theorem not_mem_encodeModeValue {c : Char} {m : ChatModeConfig}
    (hm : c ∉ m.model_path) (hp : c ∉ m.prompt_path)
    (hn : c ∉ m.name) (hd : c ∉ m.description)
    (hdig : c.isDigit = false) (hc1 : c ≠ '-') (hc2 : c ≠ '.') (hc3 : c ≠ '|')
    (hk : c ∉ sTempEq ∧ c ∉ sTopKEq ∧ c ∉ sTopPEq ∧ c ∉ sCtxSizeEq ∧
      c ∉ sThreadsEq ∧ c ∉ sGpuLayersEq ∧ c ∉ sInterFirstEq ∧
      c ∉ formatBool true ∧ c ∉ formatBool false) :
    c ∉ encodeModeValue m := by
  intro hc
  rw [encodeModeValue_eq] at hc
  have hfF : ∀ q : ℚ, c ∉ formatF32 q := by
    intro q hq
    rcases mem_formatF32 hq with h | h | h
    · rw [h] at hdig
      cases hdig
    · exact hc1 h
    · exact hc2 h
  have hfI : ∀ v : ℤ, c ∉ formatInt v := by
    intro v hv
    rcases mem_formatInt hv with h | h
    · rw [h] at hdig
      cases hdig
    · exact hc1 h
  have hfB : ∀ b : Bool, c ∉ formatBool b := by
    intro b
    cases b
    · exact hk.2.2.2.2.2.2.2.2
    · exact hk.2.2.2.2.2.2.2.1
  rcases mem_joinSep hc with h | ⟨piece, hpiece, hcp⟩
  · exact hc3 h
  · simp only [List.mem_cons, List.not_mem_nil, or_false] at hpiece
    rcases hpiece with rfl | rfl | rfl | rfl | rfl | rfl | rfl | rfl | rfl | rfl | rfl
    · exact hm hcp
    · exact hp hcp
    · rcases List.mem_append.mp hcp with h | h
      · exact hk.1 h
      · exact hfF _ h
    · rcases List.mem_append.mp hcp with h | h
      · exact hk.2.1 h
      · exact hfI _ h
    · rcases List.mem_append.mp hcp with h | h
      · exact hk.2.2.1 h
      · exact hfF _ h
    · rcases List.mem_append.mp hcp with h | h
      · exact hk.2.2.2.1 h
      · exact hfI _ h
    · rcases List.mem_append.mp hcp with h | h
      · exact hk.2.2.2.2.1 h
      · exact hfI _ h
    · rcases List.mem_append.mp hcp with h | h
      · exact hk.2.2.2.2.2.1 h
      · exact hfI _ h
    · rcases List.mem_append.mp hcp with h | h
      · exact hk.2.2.2.2.2.2.1 h
      · exact hfB _ h
    · exact hn hcp
    · exact hd hcp

/-! ## Facts about decoded records -/

/-- The pipe-delimited segments of a mode string that contain no `=`
(the `non_param_parts` of `read_saved_modes`). -/
def nonParamSegments (s : Str) : List Str :=
  (splitOnChar '|' s).filter (fun part => !strContains part '=')

/-- Characterization of a successful decode: the record's fields as the
source computes them. -/
theorem decodeModeEntry_some {home promptsDir : Str} {d : ℤ} {s : Str} {r : ChatModeConfig}
    (h : decodeModeEntry home promptsDir d s = some r) :
    2 ≤ (splitOnChar '|' s).length ∧
      r.model_path = (if isAbsolutePath ((splitOnChar '|' s).getD 0 []) then
          (splitOnChar '|' s).getD 0 []
        else home ++ '/' :: trimLeadingChar '/' ((splitOnChar '|' s).getD 0 [])) ∧
      r.prompt_path = (if 1 < (splitOnChar '|' s).length ∧
            ¬strContains ((splitOnChar '|' s).getD 1 []) '=' then
          if isAbsolutePath ((splitOnChar '|' s).getD 1 []) then
            (splitOnChar '|' s).getD 1 []
          else joinPath promptsDir (trimLeadingChar '/'
            (trimLeadingStr sPromptsSlash ((splitOnChar '|' s).getD 1 [])))
        else joinPath promptsDir sBlankPrompt) ∧
      r.name = (if 2 ≤ (nonParamSegments s).length then
          (nonParamSegments s).getD ((nonParamSegments s).length - 2) [] else []) ∧
      r.description = (if 2 ≤ (nonParamSegments s).length then
          (nonParamSegments s).getD ((nonParamSegments s).length - 1) [] else []) ∧
      r.parameters = parse_parameters_from_parts d (splitOnChar '|' s) := by
  rw [decodeModeEntry] at h
  by_cases hlen : (splitOnChar '|' s).length < 2
  · rw [if_pos hlen] at h
    cases h
  · rw [if_neg hlen] at h
    rw [Option.some_inj] at h
    subst h
    refine ⟨by omega, rfl, rfl, rfl, rfl, rfl⟩

/-! ## Lemmas about `linesOf` and the written file -/

theorem linesOf_eq_of_segs {t : Str} {main : List Str}
    (h : splitOnChar '\n' t = main ++ [[]]) :
    linesOf t = main.map stripTrailingCR := by
  simp only [linesOf]
  rw [h, List.dropLast_concat, List.getLastD_concat]
  simp

theorem getLastD_mem {l : List Str} (h : l ≠ []) : l.getLastD [] ∈ l := by
  rcases hgl : l.getLast? with _ | x
  · rw [List.getLast?_eq_none_iff] at hgl
    exact absurd hgl h
  · rw [List.getLastD_eq_getLast?, hgl]
    exact List.mem_of_getLast?_eq_some hgl

theorem mem_stripTrailingCR {c : Char} {s : Str} (h : c ∈ stripTrailingCR s) : c ∈ s := by
  rw [stripTrailingCR] at h
  split_ifs at h
  · exact List.dropLast_subset _ h
  · exact h

theorem mem_linesOf_not_newline {t : Str} : ∀ l ∈ linesOf t, ('\n') ∉ l := by
  intro l hl
  simp only [linesOf] at hl
  rcases List.mem_append.mp hl with h | h
  · rw [List.mem_map] at h
    obtain ⟨seg, hseg, rfl⟩ := h
    intro hc
    exact mem_splitOnChar_not_mem seg (List.dropLast_subset _ hseg) (mem_stripTrailingCR hc)
  · split_ifs at h
    · cases h
    · rw [List.mem_singleton] at h
      subst h
      exact mem_splitOnChar_not_mem _ (getLastD_mem splitOnChar_ne_nil)

theorem getLast_linesOf_entry (t entry : Str) (hfree : ('\n') ∉ entry)
    (hlast : entry.getLast? ≠ some '\r') :
    (linesOf (t ++ '\n' :: (entry ++ ['\n']))).getLast? = some entry := by
  have hsegs : splitOnChar '\n' (t ++ '\n' :: (entry ++ ['\n'])) =
      (splitOnChar '\n' t ++ [entry]) ++ [[]] := by
    rw [show entry ++ ['\n'] = entry ++ '\n' :: ([] : Str) from rfl]
    rw [splitOnChar_append_cons, splitOnChar_append_cons, splitOnChar_of_not_mem hfree]
    simp [splitOnChar]
  rw [linesOf_eq_of_segs hsegs, List.map_append]
  simp only [List.map_cons, List.map_nil]
  rw [List.getLast?_concat, stripTrailingCR, if_neg hlast]

theorem newline_not_mem_modeEntryLine (n : ℕ) (m : ChatModeConfig)
    (h1 : ('\n') ∉ m.model_path) (h2 : ('\n') ∉ m.prompt_path)
    (h3 : ('\n') ∉ m.name) (h4 : ('\n') ∉ m.description) :
    ('\n') ∉ modeEntryLine n m := by
  intro hc
  have henc : ('\n') ∉ encodeModeValue m :=
    not_mem_encodeModeValue h1 h2 h3 h4 (by decide) (by decide) (by decide) (by decide)
      (by decide)
  rw [modeEntryLine] at hc
  simp only [List.mem_append, List.mem_cons, List.not_mem_nil, or_false] at hc
  rcases hc with (((hc | hc) | hc) | hc) | hc
  · exact absurd hc (by decide)
  · exact absurd (formatNat_all_digit n _ hc) (by decide)
  · exact absurd hc (by decide)
  · exact henc hc
  · exact absurd hc (by decide)

theorem modeEntryLine_getLast (n : ℕ) (m : ChatModeConfig) :
    (modeEntryLine n m).getLast? = some '"' := by
  have hshape : modeEntryLine n m =
      (sModeUnderscore ++ formatNat n ++ sEqQuote ++ encodeModeValue m) ++ ['"'] := by
    simp [modeEntryLine]
  rw [hshape, List.getLast?_concat]

theorem getLast_linesOf_save (pre hdr entry : Str) (hE : ('\n') ∉ entry)
    (hlast : entry.getLast? ≠ some '\r') :
    (linesOf (pre ++ '\n' :: hdr ++ '\n' :: entry ++ ['\n'])).getLast? = some entry := by
  have hassoc : pre ++ '\n' :: hdr ++ '\n' :: entry ++ ['\n'] =
      (pre ++ '\n' :: hdr) ++ '\n' :: (entry ++ ['\n']) := by
    simp
  rw [hassoc]
  exact getLast_linesOf_entry _ _ hE hlast

/-! ## C4 -/

/-- C4: for every existing configuration text, `save_mode_to_config`
appends an entry whose key is `mode_<N>` with `N` equal to the number
of lines of the existing text that start with `"mode_"` plus 1 —
counting lines, not successfully parsed records.  The written file's
last line is that entry. -/
theorem C4_next_index (content : Str) (m : ChatModeConfig) (b : Bool)
    (h1 : ('\n') ∉ m.model_path) (h2 : ('\n') ∉ m.prompt_path)
    (h3 : ('\n') ∉ m.name) (h4 : ('\n') ∉ m.description) :
    (linesOf (save_mode_to_config content m b)).getLast? =
      some (modeEntryLine
        (((linesOf content).filter
          (fun line => sModeUnderscore.isPrefixOf line)).length + 1) m) := by
  simp only [save_mode_to_config]
  exact getLast_linesOf_save _ _ _
    (newline_not_mem_modeEntryLine _ m h1 h2 h3 h4)
    (by rw [modeEntryLine_getLast]; intro hcontra; cases hcontra)

/-- C4 witness: appending to a store whose text has one well-formed
`mode_1` line and one malformed `mode_garbage` line produces the key
`mode_3` (two lines start with `mode_`). -/
theorem C4_witness :
    (linesOf (save_mode_to_config ("mode_1 = \"a|b|x|y\"\nmode_garbage".toList)
        (ChatModeConfig.mk ("N".toList) ("D".toList) ("/m".toList) ("/p".toList)
          (defaultParams 3)) true)).getLast? =
      some (modeEntryLine
        (((linesOf ("mode_1 = \"a|b|x|y\"\nmode_garbage".toList)).filter
            (fun line => sModeUnderscore.isPrefixOf line)).length + 1)
        (ChatModeConfig.mk ("N".toList) ("D".toList) ("/m".toList) ("/p".toList)
          (defaultParams 3))) :=
  C4_next_index ("mode_1 = \"a|b|x|y\"\nmode_garbage".toList)
    (ChatModeConfig.mk ("N".toList) ("D".toList) ("/m".toList) ("/p".toList)
      (defaultParams 3)) true (by decide) (by decide) (by decide) (by decide)

/-! ## C7 -/

theorem splitOnChar_cons_self (c : Char) (xs : Str) :
    splitOnChar c (c :: xs) = [] :: splitOnChar c xs := by
  simp [splitOnChar]

theorem getLast?_ne_of_not_mem {l : Str} {c : Char} (h : c ∉ l) :
    l.getLast? ≠ some c :=
  fun hc => h (List.mem_of_getLast?_eq_some hc)

theorem char_not_mem_modeHeaderLine {c : Char} (n : ℕ) (m : ChatModeConfig)
    (hn : c ∉ m.name) (hd : c ∉ m.description)
    (hc1 : c ∉ sModeHeaderStart) (hc2 : c.isDigit = false) (hc3 : c ∉ sSpaceDashSpace) :
    c ∉ modeHeaderLine n m := by
  intro hc
  rw [modeHeaderLine] at hc
  simp only [List.mem_append] at hc
  rcases hc with ((((hc | hc) | hc) | hc) | hc) | hc
  · exact hc1 hc
  · have := formatNat_all_digit n _ hc
    rw [this] at hc2
    cases hc2
  · exact hc3 hc
  · exact hn hc
  · exact hc3 hc
  · exact hd hc

/-- C7 counterexample: saving a mode as the new default into the store
`a = 1\ndefault_mode = 1\nb = 2` produces a file whose LAST line is the
new `mode_2` entry, not a `default_mode` line — the `default_mode` line
is re-appended before the newly appended mode header and entry, so it
is not at the end of the written file as the claim states. -/
theorem C7_counterexample :
    (linesOf (save_mode_to_config ("a = 1\ndefault_mode = 1\nmode_1 = \"x|y|n|d\"".toList)
        (ChatModeConfig.mk ("N".toList) ("D".toList) ("/m".toList) ("/p".toList)
          (LlamaCppParameters.mk (⟨4, 5, by decide, by decide⟩ : ℚ) 40
            (⟨9, 10, by decide, by decide⟩ : ℚ) 2000 3 0 true)) true)).getLastD []
        = ("mode_2 = \"/m|/p|temp=0.8|top_k=40|top_p=0.9|ctx_size=2000|threads=3|" ++
            "gpu_layers=0|interactive_first=true|N|D\"").toList ∧
      sDefaultMode.isPrefixOf
        ((linesOf (save_mode_to_config ("a = 1\ndefault_mode = 1\nmode_1 = \"x|y|n|d\"".toList)
          (ChatModeConfig.mk ("N".toList) ("D".toList) ("/m".toList) ("/p".toList)
            (LlamaCppParameters.mk (⟨4, 5, by decide, by decide⟩ : ℚ) 40
              (⟨9, 10, by decide, by decide⟩ : ℚ) 2000 3 0 true)) true)).getLastD [])
        = false := by
  set_option maxRecDepth 8192 in constructor <;> rfl

/-- C7 (amended): when saving a mode as the new default, every line of
the original file other than the `default_mode`-prefixed lines is
preserved in its original relative order; the old `default_mode` line
is removed and a new `default_mode = N` line (pointing at the newly
appended mode's index `N`) is appended at the end of the PRESERVED
lines, after which the blank separator, the mode header comment and the
new `mode_N` entry follow — so the file ends with the new mode entry,
not with the `default_mode` line. -/
theorem C7_default_rewrite (content : Str) (m : ChatModeConfig)
    (h1 : ('\n') ∉ m.model_path) (h2 : ('\n') ∉ m.prompt_path)
    (h3 : ('\n') ∉ m.name) (h4 : ('\n') ∉ m.description)
    (h5 : ('\r') ∉ m.name) (h6 : ('\r') ∉ m.description)
    (hcr : ∀ l ∈ linesOf content, l.getLast? ≠ some '\r')
    (hne : (linesOf content).filter (fun line => !sDefaultMode.isPrefixOf line) ≠ []) :
    linesOf (save_mode_to_config content m true) =
      (linesOf content).filter (fun line => !sDefaultMode.isPrefixOf line) ++
        [sDefaultModeEq ++ formatNat
            (((linesOf content).filter
              (fun line => sModeUnderscore.isPrefixOf line)).length + 1),
          [],
          modeHeaderLine (((linesOf content).filter
            (fun line => sModeUnderscore.isPrefixOf line)).length + 1) m,
          modeEntryLine (((linesOf content).filter
            (fun line => sModeUnderscore.isPrefixOf line)).length + 1) m] := by
  simp only [save_mode_to_config]
  rw [if_pos trivial]
  set N := ((linesOf content).filter
    (fun line => sModeUnderscore.isPrefixOf line)).length + 1 with hN
  set F := (linesOf content).filter (fun line => !sDefaultMode.isPrefixOf line) with hF
  have hFfree : ∀ piece ∈ F, ('\n') ∉ piece := by
    intro piece hp
    exact mem_linesOf_not_newline piece (List.mem_of_mem_filter hp)
  have hBfree : ('\n') ∉ sDefaultModeEq ++ formatNat N := by
    intro hc
    rcases List.mem_append.mp hc with hc | hc
    · exact absurd hc (by decide)
    · exact absurd (formatNat_all_digit _ _ hc) (by decide)
  have hBcr : ('\r') ∉ sDefaultModeEq ++ formatNat N := by
    intro hc
    rcases List.mem_append.mp hc with hc | hc
    · exact absurd hc (by decide)
    · exact absurd (formatNat_all_digit _ _ hc) (by decide)
  have hHfree : ('\n') ∉ modeHeaderLine N m :=
    char_not_mem_modeHeaderLine N m h3 h4 (by decide) (by decide) (by decide)
  have hHcr : ('\r') ∉ modeHeaderLine N m :=
    char_not_mem_modeHeaderLine N m h5 h6 (by decide) (by decide) (by decide)
  have hEfree : ('\n') ∉ modeEntryLine N m := newline_not_mem_modeEntryLine N m h1 h2 h3 h4
  have hElast : (modeEntryLine N m).getLast? ≠ some '\r' := by
    rw [modeEntryLine_getLast]
    intro hcontra
    cases hcontra
  have hA : splitOnChar '\n' (joinLines F) = F := by
    rw [joinLines]
    exact splitOnChar_joinSep hne hFfree
  have e1 : (joinLines F ++ '\n' :: sDefaultModeEq ++ formatNat N ++ ['\n']) ++
        '\n' :: modeHeaderLine N m ++ '\n' :: modeEntryLine N m ++ ['\n'] =
      joinLines F ++ '\n' :: ((sDefaultModeEq ++ formatNat N) ++ '\n' :: ('\n' ::
        (modeHeaderLine N m ++ '\n' :: (modeEntryLine N m ++ '\n' :: ([] : Str))))) := by
    simp
  rw [e1]
  have hsegs : splitOnChar '\n' (joinLines F ++ '\n' ::
      ((sDefaultModeEq ++ formatNat N) ++ '\n' :: ('\n' ::
        (modeHeaderLine N m ++ '\n' :: (modeEntryLine N m ++ '\n' :: ([] : Str)))))) =
      (F ++ [sDefaultModeEq ++ formatNat N, [], modeHeaderLine N m, modeEntryLine N m])
        ++ [[]] := by
    rw [splitOnChar_append_cons, splitOnChar_append_cons, hA,
      splitOnChar_of_not_mem hBfree, splitOnChar_cons_self, splitOnChar_append_cons,
      splitOnChar_of_not_mem hHfree, splitOnChar_append_cons,
      splitOnChar_of_not_mem hEfree]
    simp [splitOnChar]
  rw [linesOf_eq_of_segs hsegs, List.map_append]
  have hmapF : F.map stripTrailingCR = F := by
    have hid : ∀ l ∈ F, stripTrailingCR l = l := by
      intro l hl
      rw [stripTrailingCR, if_neg (hcr l (List.mem_of_mem_filter hl))]
    calc F.map stripTrailingCR = F.map id := List.map_congr_left hid
      _ = F := List.map_id F
  rw [hmapF]
  simp only [List.map_cons, List.map_nil]
  rw [show stripTrailingCR (sDefaultModeEq ++ formatNat N) = sDefaultModeEq ++ formatNat N
      from by rw [stripTrailingCR, if_neg (getLast?_ne_of_not_mem hBcr)],
    show stripTrailingCR ([] : Str) = [] from rfl,
    show stripTrailingCR (modeHeaderLine N m) = modeHeaderLine N m from by
      rw [stripTrailingCR, if_neg (getLast?_ne_of_not_mem hHcr)],
    show stripTrailingCR (modeEntryLine N m) = modeEntryLine N m from by
      rw [stripTrailingCR, if_neg hElast]]

/-- C7 witness: the amended theorem instantiated at a concrete store
and mode. -/
theorem C7_witness :
    linesOf (save_mode_to_config ("a = 1\ndefault_mode = 1\nmode_1 = \"x|y|n|d\"".toList)
        (ChatModeConfig.mk ("N".toList) ("D".toList) ("/m".toList) ("/p".toList)
          (defaultParams 3)) true) =
      (linesOf ("a = 1\ndefault_mode = 1\nmode_1 = \"x|y|n|d\"".toList)).filter
          (fun line => !sDefaultMode.isPrefixOf line) ++
        [sDefaultModeEq ++ formatNat
            (((linesOf ("a = 1\ndefault_mode = 1\nmode_1 = \"x|y|n|d\"".toList)).filter
              (fun line => sModeUnderscore.isPrefixOf line)).length + 1),
          [],
          modeHeaderLine (((linesOf ("a = 1\ndefault_mode = 1\nmode_1 = \"x|y|n|d\"".toList)).filter
            (fun line => sModeUnderscore.isPrefixOf line)).length + 1)
            (ChatModeConfig.mk ("N".toList) ("D".toList) ("/m".toList) ("/p".toList)
              (defaultParams 3)),
          modeEntryLine (((linesOf ("a = 1\ndefault_mode = 1\nmode_1 = \"x|y|n|d\"".toList)).filter
            (fun line => sModeUnderscore.isPrefixOf line)).length + 1)
            (ChatModeConfig.mk ("N".toList) ("D".toList) ("/m".toList) ("/p".toList)
              (defaultParams 3))] :=
  C7_default_rewrite ("a = 1\ndefault_mode = 1\nmode_1 = \"x|y|n|d\"".toList)
    (ChatModeConfig.mk ("N".toList) ("D".toList) ("/m".toList) ("/p".toList)
      (defaultParams 3))
    (by decide) (by decide) (by decide) (by decide) (by decide) (by decide)
    (by decide) (by decide)

/-! ## Lemmas about trimming (for the Field Reader claims) -/

theorem dropWhile_dropWhile (p : Char → Bool) (l : Str) :
    (l.dropWhile p).dropWhile p = l.dropWhile p := by
  induction l with
  | nil => rfl
  | cons c cs ih =>
    by_cases hc : p c
    · rw [List.dropWhile_cons_of_pos hc, ih]
    · rw [List.dropWhile_cons_of_neg hc, List.dropWhile_cons_of_neg hc]

theorem trimLeft_trimLeft (s : Str) : trimLeft (trimLeft s) = trimLeft s :=
  dropWhile_dropWhile Char.isWhitespace s

theorem trimRight_trimRight (s : Str) : trimRight (trimRight s) = trimRight s := by
  rw [trimRight, trimRight, List.reverse_reverse, dropWhile_dropWhile]

theorem trimRight_prefix_self (s : Str) : trimRight s <+: s := by
  rw [trimRight]
  have h := List.reverse_prefix.mpr
    (List.dropWhile_suffix (l := s.reverse) Char.isWhitespace)
  rwa [List.reverse_reverse] at h

theorem trimLeft_of_prefix_fixed {x y : Str} (h : trimLeft x = x) (hp : y <+: x) :
    trimLeft y = y := by
  cases y with
  | nil => rfl
  | cons c cs =>
    obtain ⟨t, ht⟩ := hp
    by_cases hc : Char.isWhitespace c
    · rw [← ht, List.cons_append, trimLeft, List.dropWhile_cons_of_pos hc] at h
      have hlen := (List.dropWhile_suffix (l := cs ++ t) Char.isWhitespace).length_le
      rw [h] at hlen
      simp at hlen
    · rw [trimLeft, List.dropWhile_cons_of_neg hc]

theorem trim_trim (s : Str) : trim (trim s) = trim s := by
  rw [trim, trim]
  rw [trimLeft_of_prefix_fixed (trimLeft_trimLeft s) (trimRight_prefix_self (trimLeft s)),
    trimRight_trimRight]

theorem trimLeft_append (a b : Str) :
    trimLeft (a ++ b) = if trimLeft a = [] then trimLeft b else trimLeft a ++ b := by
  induction a with
  | nil => simp [trimLeft]
  | cons c cs ih =>
    by_cases hc : Char.isWhitespace c
    · have h1 : trimLeft (c :: cs) = trimLeft cs := by
        rw [trimLeft, trimLeft, List.dropWhile_cons_of_pos hc]
      rw [List.cons_append, show trimLeft (c :: (cs ++ b)) = trimLeft (cs ++ b) from by
        rw [trimLeft, trimLeft, List.dropWhile_cons_of_pos hc], ih, h1]
    · have h1 : trimLeft (c :: cs) = c :: cs := by
        rw [trimLeft, List.dropWhile_cons_of_neg hc]
      rw [List.cons_append, show trimLeft (c :: (cs ++ b)) = c :: (cs ++ b) from by
        rw [trimLeft, List.dropWhile_cons_of_neg hc], h1, if_neg (by simp)]
      rfl

theorem key_implies_startsWith {field k raw line : Str} (hfield : field ≠ [])
    (hsp : splitOnceChar '=' line = some (k, raw)) (hkey : trim k = field) :
    field.isPrefixOf (trimLeft line) = true := by
  obtain ⟨hline, -⟩ := splitOnceChar_eq_some hsp
  subst hline
  rw [trimLeft_append]
  by_cases h0 : trimLeft k = []
  · rw [trim, h0] at hkey
    exact absurd hkey.symm hfield
  · rw [if_neg h0, List.isPrefixOf_iff_prefix]
    have hpfx : field <+: trimLeft k := by
      rw [← hkey, trim]
      exact trimRight_prefix_self _
    exact hpfx.trans (List.prefix_append _ _)

/-! ## C9 -/

/-- The claim-side notion for C9: the part after the first `=` of the
first non-blank, non-comment line whose trimmed key equals the field
name. -/
def firstFieldValue (field : Str) : List Str → Option Str
  | [] => none
  | line :: rest =>
    if trim line = [] ∨ (trimLeft line).headD ' ' = '#' then firstFieldValue field rest
    else
      match splitOnceChar '=' line with
      | none => firstFieldValue field rest
      | some (k, v) => if trim k = field then some v else firstFieldValue field rest

/-- Modelled from the spec's words for C9 (for comparison with the
code): strip exactly one layer of surrounding double quotes. -/
def stripOneQuoteLayer (s : Str) : Str :=
  if 2 ≤ s.length ∧ s.headD ' ' = '"' ∧ s.getLastD ' ' = '"' then (s.drop 1).dropLast
  else s

/-- C9 counterexample: for the line `x = ""hello""` the code's
`trim_matches('"')` strips EVERY surrounding quote and returns `hello`,
while stripping exactly one layer of quotes (the claim) would return
`"hello"`. -/
theorem C9_counterexample :
    read_field_from_toml ("x".toList) ("x = \"\"hello\"\"".toList) = "hello".toList ∧
      trim (stripOneQuoteLayer (trim ("\"\"hello\"\"".toList))) = "\"hello\"".toList ∧
      ("hello".toList : Str) ≠ "\"hello\"".toList := by
  refine ⟨by decide, by decide, by decide⟩

/-- C9 (amended): a scalar field lookup returns the text after the
first `=` of the first line whose trimmed key equals the field name,
trimmed, with ALL surrounding double-quote characters stripped
(repeatedly, not one layer), and trimmed again; when that line's value
is empty after this cleaning — or already empty after the first trim —
the lookup returns the empty result, and when no line's trimmed key
matches, the result is empty as well. -/
theorem C9_scalar_lookup (field content : Str) (hfield : field ≠ []) :
    read_field_from_toml field content =
      (match firstFieldValue field (linesOf content) with
       | none => []
       | some v => trim (trimCharBoth '"' (trim v))) := by
  rw [read_field_from_toml, if_neg hfield]
  induction linesOf content with
  | nil => rfl
  | cons line rest ih =>
    rw [readFieldLoop, firstFieldValue]
    by_cases hskip : trim line = [] ∨ (trimLeft line).headD ' ' = '#'
    · rw [if_pos hskip, if_pos hskip, ih]
    · rw [if_neg hskip, if_neg hskip]
      cases hsp : splitOnceChar '=' line with
      | none =>
        by_cases hstart : field.isPrefixOf (trimLeft line)
        · rw [if_pos hstart]
          exact ih
        · rw [if_neg hstart]
          exact ih
      | some kv =>
        obtain ⟨k, v⟩ := kv
        by_cases hkey : trim k = field
        · rw [if_pos (key_implies_startsWith hfield hsp hkey)]
          dsimp only
          rw [if_neg (by
            rw [hkey]
            intro hcontra
            exact hcontra rfl), if_pos hkey]
          dsimp only
          by_cases hv : trim v = []
          · rw [if_pos hv, hv]
            rfl
          · rw [if_neg hv, trim_trim]
            by_cases hcl : trim (trimCharBoth '"' (trim v)) = []
            · rw [if_pos hcl, hcl]
            · rw [if_neg hcl]
        · by_cases hstart : field.isPrefixOf (trimLeft line)
          · rw [if_pos hstart]
            dsimp only
            rw [if_pos (by
              intro hcontra
              exact hkey hcontra), if_neg hkey]
            exact ih
          · rw [if_neg hstart]
            dsimp only
            rw [if_neg hkey]
            exact ih

/-- C9 witness: the amended theorem instantiated at a concrete field
and configuration text. -/
theorem C9_witness :
    read_field_from_toml ("x".toList) ("# c\nxy = 1\nx =  \" val \" ".toList) =
      (match firstFieldValue ("x".toList)
          (linesOf ("# c\nxy = 1\nx =  \" val \" ".toList)) with
       | none => []
       | some v => trim (trimCharBoth '"' (trim v))) :=
  C9_scalar_lookup ("x".toList) ("# c\nxy = 1\nx =  \" val \" ".toList) (by decide)

/-! ## C2 -/

theorem sortPairs_perm (l : List (ℕ × Str)) : List.Perm (sortPairs l) l :=
  List.perm_insertionSort _ l

theorem sortPairs_sorted (l : List (ℕ × Str)) :
    (sortPairs l).Pairwise (fun a b => a.1 ≤ b.1) := by
  haveI : IsTotal (ℕ × Str) (fun a b => a.1 ≤ b.1) := ⟨fun a b => Nat.le_total a.1 b.1⟩
  haveI : IsTrans (ℕ × Str) (fun a b => a.1 ≤ b.1) := ⟨fun a b c h1 h2 => Nat.le_trans h1 h2⟩
  exact List.sorted_insertionSort _ l

theorem sortPairs_sorted_strict {l : List (ℕ × Str)}
    (h : (l.map Prod.fst).Nodup) :
    (sortPairs l).Pairwise (fun a b => a.1 < b.1) := by
  have hnd : ((sortPairs l).map Prod.fst).Nodup :=
    ((sortPairs_perm l).map Prod.fst).symm.nodup h
  have hne : (sortPairs l).Pairwise (fun a b => a.1 ≠ b.1) := List.pairwise_map.mp hnd
  exact ((sortPairs_sorted l).and hne).imp (fun hab => Nat.lt_of_le_of_ne hab.1 hab.2)

/-- C2 counterexample: two lines with the same suffix `mode_1` keep
their physical order (the sort is stable), so permuting the lines of
the file permutes the output — the result is neither strictly sorted
nor independent of physical order; and a `mode_1` line whose value
cleans to empty is dropped although its key is `mode_` plus a
parseable integer. -/
theorem C2_counterexample :
    read_basename_fields_from_toml ("mode".toList)
        ("mode_1 = \"a\"\nmode_1 = \"b\"".toList) = ["a".toList, "b".toList] ∧
      read_basename_fields_from_toml ("mode".toList)
        ("mode_1 = \"b\"\nmode_1 = \"a\"".toList) = ["b".toList, "a".toList] ∧
      List.Perm (linesOf ("mode_1 = \"a\"\nmode_1 = \"b\"".toList))
        (linesOf ("mode_1 = \"b\"\nmode_1 = \"a\"".toList)) ∧
      read_basename_fields_from_toml ("mode".toList) ("mode_1 = \"\"".toList) = [] := by
  refine ⟨by decide, by decide, by decide, by decide⟩

/-- C2 (amended): for a non-empty base name, the indexed field lookup
returns the cleaned NON-EMPTY values of the lines whose trimmed key is
the base name followed by `_` and a parseable integer suffix, stably
sorted by ascending suffix; PROVIDED the parseable suffixes are
pairwise distinct, the output is strictly ascending in the suffix and
is independent of the physical order of the lines in the file. -/
theorem C2_mode_lookup (base content content' : Str) (hbase : base ≠ [])
    (hnodup : (((linesOf content).filterMap
      (basenameLinePair (base ++ ['_']))).map Prod.fst).Nodup)
    (hperm : List.Perm (linesOf content') (linesOf content)) :
    read_basename_fields_from_toml base content' =
        read_basename_fields_from_toml base content ∧
      (sortPairs ((linesOf content).filterMap
        (basenameLinePair (base ++ ['_'])))).Pairwise (fun a b => a.1 < b.1) ∧
      List.Perm (read_basename_fields_from_toml base content)
        (((linesOf content).filterMap (basenameLinePair (base ++ ['_']))).map Prod.snd) := by
  have hpairs : List.Perm ((linesOf content').filterMap (basenameLinePair (base ++ ['_'])))
      ((linesOf content).filterMap (basenameLinePair (base ++ ['_']))) :=
    hperm.filterMap _
  have hnodup' : (((linesOf content').filterMap
      (basenameLinePair (base ++ ['_']))).map Prod.fst).Nodup :=
    (hpairs.map Prod.fst).symm.nodup hnodup
  have hs1 := sortPairs_sorted_strict hnodup
  have hs2 := sortPairs_sorted_strict hnodup'
  have hpp : List.Perm
      (sortPairs ((linesOf content').filterMap (basenameLinePair (base ++ ['_']))))
      (sortPairs ((linesOf content).filterMap (basenameLinePair (base ++ ['_'])))) :=
    (sortPairs_perm _).trans (hpairs.trans (sortPairs_perm _).symm)
  haveI : IsAntisymm (ℕ × Str) (fun a b => a.1 < b.1) :=
    ⟨fun a b h1 h2 => absurd h2 (Nat.lt_asymm h1)⟩
  have heq : sortPairs ((linesOf content').filterMap (basenameLinePair (base ++ ['_']))) =
      sortPairs ((linesOf content).filterMap (basenameLinePair (base ++ ['_']))) :=
    List.eq_of_perm_of_sorted hpp hs2 hs1
  refine ⟨?_, hs1, ?_⟩
  · rw [read_basename_fields_from_toml, read_basename_fields_from_toml,
      if_neg hbase, if_neg hbase]
    dsimp only
    rw [heq]
  · rw [read_basename_fields_from_toml, if_neg hbase]
    dsimp only
    exact (sortPairs_perm _).map Prod.snd

/-- C2 witness: the amended theorem instantiated at two concrete
configuration texts that hold the same lines in different physical
order, with distinct suffixes. -/
theorem C2_witness :
    read_basename_fields_from_toml ("mode".toList)
        ("mode_2 = \"b\"\nmode_1 = \"a\"".toList) =
        read_basename_fields_from_toml ("mode".toList)
          ("mode_1 = \"a\"\nmode_2 = \"b\"".toList) ∧
      (sortPairs ((linesOf ("mode_1 = \"a\"\nmode_2 = \"b\"".toList)).filterMap
        (basenameLinePair ("mode".toList ++ ['_'])))).Pairwise (fun a b => a.1 < b.1) ∧
      List.Perm
        (read_basename_fields_from_toml ("mode".toList)
          ("mode_1 = \"a\"\nmode_2 = \"b\"".toList))
        (((linesOf ("mode_1 = \"a\"\nmode_2 = \"b\"".toList)).filterMap
          (basenameLinePair ("mode".toList ++ ['_']))).map Prod.snd) :=
  C2_mode_lookup ("mode".toList) ("mode_1 = \"a\"\nmode_2 = \"b\"".toList)
    ("mode_2 = \"b\"\nmode_1 = \"a\"".toList) (by decide) (by decide) (by decide)


/-! ## Path and encoding helper lemmas (for C1) -/

theorem isAbsolutePath_head {p : Str} (h : isAbsolutePath p = true) : ∃ t, p = '/' :: t := by
  rw [isAbsolutePath.eq_def] at h
  split at h
  · next t => exact ⟨t, rfl⟩
  · cases h

theorem isAbsolutePath_append {a : Str} (b : Str) (h : isAbsolutePath a = true) :
    isAbsolutePath (a ++ b) = true := by
  obtain ⟨t, ht⟩ := isAbsolutePath_head h
  rw [ht]
  rfl

theorem not_abs_cons {x : Char} {xs : Str} (hx : x ≠ '/') :
    isAbsolutePath (x :: xs) = false := by
  rw [isAbsolutePath.eq_def]
  split
  · next heq => exact absurd (List.head_eq_of_cons_eq heq.symm).symm hx
  · rfl

theorem headD_of_abs {p : Str} (h : isAbsolutePath p = true) : p.headD ' ' = '/' := by
  obtain ⟨t, ht⟩ := isAbsolutePath_head h
  rw [ht]
  rfl

theorem mem_trimLeadingChar {c x : Char} {s : Str} (h : c ∈ trimLeadingChar x s) : c ∈ s := by
  induction s with
  | nil => exact h
  | cons y ys ih =>
    rw [trimLeadingChar] at h
    by_cases hy : y = x
    · rw [if_pos hy] at h
      exact List.mem_cons_of_mem y (ih h)
    · rw [if_neg hy] at h
      exact h

theorem not_abs_trimLeadingChar (s : Str) :
    isAbsolutePath (trimLeadingChar '/' s) = false := by
  induction s with
  | nil => rfl
  | cons x xs ih =>
    rw [trimLeadingChar]
    by_cases hx : x = '/'
    · rw [if_pos hx]
      exact ih
    · rw [if_neg hx]
      exact not_abs_cons hx

theorem mem_trimLeadingStrAux {c : Char} (pat : Str) :
    ∀ (fuel : ℕ) (s : Str), c ∈ trimLeadingStrAux pat fuel s → c ∈ s := by
  intro fuel
  induction fuel with
  | zero =>
    intro s h
    rw [trimLeadingStrAux] at h
    exact h
  | succ n ih =>
    intro s h
    rw [trimLeadingStrAux] at h
    by_cases hc : pat ≠ [] ∧ pat.isPrefixOf s
    · rw [if_pos hc] at h
      exact List.mem_of_mem_drop (ih _ h)
    · rw [if_neg hc] at h
      exact h

theorem mem_trimLeadingStr {c : Char} {pat s : Str} (h : c ∈ trimLeadingStr pat s) : c ∈ s :=
  mem_trimLeadingStrAux pat _ s h

theorem mem_joinPath {c : Char} {base p : Str} (h : c ∈ joinPath base p) :
    c ∈ base ∨ c = '/' ∨ c ∈ p := by
  rw [joinPath] at h
  split_ifs at h with h1 h2 h3
  · exact Or.inr (Or.inr h)
  · exact Or.inr (Or.inr h)
  · rcases List.mem_append.mp h with h | h
    · exact Or.inl h
    · exact Or.inr (Or.inr h)
  · rcases List.mem_append.mp h with h | h
    · exact Or.inl h
    · rcases List.mem_cons.mp h with h | h
      · exact Or.inr (Or.inl h)
      · exact Or.inr (Or.inr h)

theorem isAbsolutePath_joinPath {base : Str} (p : Str)
    (hb : isAbsolutePath base = true) : isAbsolutePath (joinPath base p) = true := by
  rw [joinPath]
  split_ifs with h1 h2 h3
  · exact h1
  · rw [h2] at hb
    exact absurd hb (by decide)
  · exact isAbsolutePath_append p hb
  · exact isAbsolutePath_append ('/' :: p) hb

theorem getD_mem_of_lt {l : List Str} {n : ℕ} (h : n < l.length) : l.getD n [] ∈ l := by
  rw [List.getD_eq_getElem _ _ h]
  exact List.getElem_mem h

theorem bnot_strContains_of_mem {s : Str} {c : Char} (h : c ∈ s) :
    (!strContains s c) = false := by
  rw [strContains_iff.mpr h]
  rfl

theorem bnot_strContains_of_not_mem {s : Str} {c : Char} (h : c ∉ s) :
    (!strContains s c) = true := by
  rw [strContains_eq_false.mpr h]
  rfl

theorem pipe_not_mem_formatF32 (q : ℚ) : ('|') ∉ formatF32 q := by
  intro h
  rcases mem_formatF32 h with h | h | h <;> exact absurd h (by decide)

theorem pipe_not_mem_formatInt (v : ℤ) : ('|') ∉ formatInt v := by
  intro h
  rcases mem_formatInt h with h | h <;> exact absurd h (by decide)

theorem pipe_not_mem_formatBool (b : Bool) : ('|') ∉ formatBool b := by
  intro h
  rcases mem_formatBool h with h | h | h | h | h | h | h | h <;> exact absurd h (by decide)

theorem sTempEq_append (w : Str) : sTempEq ++ w = kTemp ++ '=' :: w := by
  rw [show sTempEq = kTemp ++ ['='] from by decide, List.append_assoc]
  rfl

theorem sTopKEq_append (w : Str) : sTopKEq ++ w = kTopK ++ '=' :: w := by
  rw [show sTopKEq = kTopK ++ ['='] from by decide, List.append_assoc]
  rfl

theorem sTopPEq_append (w : Str) : sTopPEq ++ w = kTopP ++ '=' :: w := by
  rw [show sTopPEq = kTopP ++ ['='] from by decide, List.append_assoc]
  rfl

theorem sCtxSizeEq_append (w : Str) : sCtxSizeEq ++ w = kCtxSize ++ '=' :: w := by
  rw [show sCtxSizeEq = kCtxSize ++ ['='] from by decide, List.append_assoc]
  rfl

theorem sThreadsEq_append (w : Str) : sThreadsEq ++ w = kThreads ++ '=' :: w := by
  rw [show sThreadsEq = kThreads ++ ['='] from by decide, List.append_assoc]
  rfl

theorem sGpuLayersEq_append (w : Str) : sGpuLayersEq ++ w = kGpuLayers ++ '=' :: w := by
  rw [show sGpuLayersEq = kGpuLayers ++ ['='] from by decide, List.append_assoc]
  rfl

theorem sInterFirstEq_append (w : Str) : sInterFirstEq ++ w = kInterFirst ++ '=' :: w := by
  rw [show sInterFirstEq = kInterFirst ++ ['='] from by decide, List.append_assoc]
  rfl


/-- C1: for a mode string that decodes successfully with at least two
non-parameter segments, under an absolute, pipe-free home directory and
an absolute, pipe- and equals-free prompts directory, and with the CPU
count in `i32` range, re-encoding the decoded record in the canonical
fixed-field order and decoding the encoded text again yields exactly
the record of the first decode. -/
theorem C1_round_trip (home promptsDir : Str) (d : ℤ) (s : Str) (r : ChatModeConfig)
    (hH1 : isAbsolutePath home = true) (hH2 : ('|') ∉ home)
    (hP1 : isAbsolutePath promptsDir = true) (hP2 : ('|') ∉ promptsDir)
    (hP3 : ('=') ∉ promptsDir)
    (hd1 : 1 ≤ d) (hd2 : d ≤ 2 ^ 31 - 2)
    (hnp : 2 ≤ (nonParamSegments s).length)
    (hdec : decodeModeEntry home promptsDir d s = some r) :
    decodeModeEntry home promptsDir d (encodeModeValue r) = some r := by
  obtain ⟨hlen, hmodel, hprompt, hname, hdesc, hparams⟩ := decodeModeEntry_some hdec
  have hp0mem : (splitOnChar '|' s).getD 0 [] ∈ splitOnChar '|' s :=
    getD_mem_of_lt (by omega)
  have hp1mem : (splitOnChar '|' s).getD 1 [] ∈ splitOnChar '|' s :=
    getD_mem_of_lt (by omega)
  have hp0pipe : ('|') ∉ (splitOnChar '|' s).getD 0 [] :=
    mem_splitOnChar_not_mem _ hp0mem
  have hp1pipe : ('|') ∉ (splitOnChar '|' s).getD 1 [] :=
    mem_splitOnChar_not_mem _ hp1mem
  have hm_abs : isAbsolutePath r.model_path = true := by
    rw [hmodel]
    by_cases h0 : isAbsolutePath ((splitOnChar '|' s).getD 0 []) = true
    · rw [if_pos h0]
      exact h0
    · rw [if_neg h0]
      exact isAbsolutePath_append _ hH1
  have hm_pipe : ('|') ∉ r.model_path := by
    rw [hmodel]
    by_cases h0 : isAbsolutePath ((splitOnChar '|' s).getD 0 []) = true
    · rw [if_pos h0]
      exact hp0pipe
    · rw [if_neg h0]
      intro hc
      rcases List.mem_append.mp hc with hc | hc
      · exact hH2 hc
      · rcases List.mem_cons.mp hc with hc | hc
        · exact absurd hc (by decide)
        · exact hp0pipe (mem_trimLeadingChar hc)
  have hprompt_facts : isAbsolutePath r.prompt_path = true ∧
      ('|') ∉ r.prompt_path ∧ ('=') ∉ r.prompt_path := by
    rw [hprompt]
    by_cases hcond : 1 < (splitOnChar '|' s).length ∧
        ¬ strContains ((splitOnChar '|' s).getD 1 []) '=' = true
    · rw [if_pos hcond]
      have h1eq : ('=') ∉ (splitOnChar '|' s).getD 1 [] := by
        refine strContains_eq_false.mp ?_
        cases hb : strContains ((splitOnChar '|' s).getD 1 []) '='
        · rfl
        · exact absurd hb hcond.2
      by_cases habs1 : isAbsolutePath ((splitOnChar '|' s).getD 1 []) = true
      · rw [if_pos habs1]
        exact ⟨habs1, hp1pipe, h1eq⟩
      · rw [if_neg habs1]
        refine ⟨isAbsolutePath_joinPath _ hP1, ?_, ?_⟩
        · intro hc
          rcases mem_joinPath hc with hc | hc | hc
          · exact hP2 hc
          · exact absurd hc (by decide)
          · exact hp1pipe (mem_trimLeadingStr (mem_trimLeadingChar hc))
        · intro hc
          rcases mem_joinPath hc with hc | hc | hc
          · exact hP3 hc
          · exact absurd hc (by decide)
          · exact h1eq (mem_trimLeadingStr (mem_trimLeadingChar hc))
    · rw [if_neg hcond]
      refine ⟨isAbsolutePath_joinPath _ hP1, ?_, ?_⟩
      · intro hc
        rcases mem_joinPath hc with hc | hc | hc
        · exact hP2 hc
        · exact absurd hc (by decide)
        · exact absurd hc (by decide)
      · intro hc
        rcases mem_joinPath hc with hc | hc | hc
        · exact hP3 hc
        · exact absurd hc (by decide)
        · exact absurd hc (by decide)
  obtain ⟨hp_abs, hp_pipe, hp_eq⟩ := hprompt_facts
  have hsegfree : ∀ x ∈ nonParamSegments s, ('|') ∉ x ∧ ('=') ∉ x := by
    intro x hx
    rw [nonParamSegments] at hx
    rcases List.mem_filter.mp hx with ⟨hmem, hpred⟩
    refine ⟨mem_splitOnChar_not_mem _ hmem, strContains_eq_false.mp ?_⟩
    have hpred2 : (!strContains x '=') = true := hpred
    cases hb : strContains x '='
    · rfl
    · rw [hb] at hpred2
      exact absurd hpred2 (by decide)
  have hname2 : r.name = (nonParamSegments s).getD ((nonParamSegments s).length - 2) [] := by
    rw [hname, if_pos hnp]
  have hdesc2 : r.description =
      (nonParamSegments s).getD ((nonParamSegments s).length - 1) [] := by
    rw [hdesc, if_pos hnp]
  have hn_free : ('|') ∉ r.name ∧ ('=') ∉ r.name := by
    rw [hname2]
    exact hsegfree _ (getD_mem_of_lt (by omega))
  have hd_free : ('|') ∉ r.description ∧ ('=') ∉ r.description := by
    rw [hdesc2]
    exact hsegfree _ (getD_mem_of_lt (by omega))
  have hinv : ParamsInv d r.parameters := by
    rw [hparams]
    exact paramsInv_parse_parameters hd1 _
  obtain ⟨⟨LT, hLT⟩, ⟨LP, hLP⟩, hK, hC, hG, hTh⟩ := hinv
  have hsplit : splitOnChar '|' (encodeModeValue r) =
      [r.model_path, r.prompt_path,
        sTempEq ++ formatF32 r.parameters.temperature_value,
        sTopKEq ++ formatInt r.parameters.top_k_sampling,
        sTopPEq ++ formatF32 r.parameters.top_p_sampling,
        sCtxSizeEq ++ formatInt r.parameters.context_size,
        sThreadsEq ++ formatInt r.parameters.thread_count,
        sGpuLayersEq ++ formatInt r.parameters.gpu_layers,
        sInterFirstEq ++ formatBool r.parameters.interactive_first,
        r.name, r.description] := by
    rw [encodeModeValue_eq]
    refine splitOnChar_joinSep (by simp) ?_
    intro piece hp
    simp only [List.mem_cons, List.not_mem_nil, or_false] at hp
    rcases hp with rfl | rfl | rfl | rfl | rfl | rfl | rfl | rfl | rfl | rfl | rfl
    · exact hm_pipe
    · exact hp_pipe
    · intro hc
      rcases List.mem_append.mp hc with hc | hc
      · exact absurd hc (by decide)
      · exact pipe_not_mem_formatF32 _ hc
    · intro hc
      rcases List.mem_append.mp hc with hc | hc
      · exact absurd hc (by decide)
      · exact pipe_not_mem_formatInt _ hc
    · intro hc
      rcases List.mem_append.mp hc with hc | hc
      · exact absurd hc (by decide)
      · exact pipe_not_mem_formatF32 _ hc
    · intro hc
      rcases List.mem_append.mp hc with hc | hc
      · exact absurd hc (by decide)
      · exact pipe_not_mem_formatInt _ hc
    · intro hc
      rcases List.mem_append.mp hc with hc | hc
      · exact absurd hc (by decide)
      · exact pipe_not_mem_formatInt _ hc
    · intro hc
      rcases List.mem_append.mp hc with hc | hc
      · exact absurd hc (by decide)
      · exact pipe_not_mem_formatInt _ hc
    · intro hc
      rcases List.mem_append.mp hc with hc | hc
      · exact absurd hc (by decide)
      · exact pipe_not_mem_formatBool _ hc
    · exact hn_free.1
    · exact hd_free.1
  have hfiltertail :
      List.filter (fun part => !strContains part '=')
        [r.prompt_path,
          sTempEq ++ formatF32 r.parameters.temperature_value,
          sTopKEq ++ formatInt r.parameters.top_k_sampling,
          sTopPEq ++ formatF32 r.parameters.top_p_sampling,
          sCtxSizeEq ++ formatInt r.parameters.context_size,
          sThreadsEq ++ formatInt r.parameters.thread_count,
          sGpuLayersEq ++ formatInt r.parameters.gpu_layers,
          sInterFirstEq ++ formatBool r.parameters.interactive_first,
          r.name, r.description] =
      [r.prompt_path, r.name, r.description] := by
    rw [List.filter_cons_of_pos (by simp [bnot_strContains_of_not_mem hp_eq]),
      List.filter_cons_of_neg (by simp [bnot_strContains_of_mem
        (List.mem_append_left _ (show ('=') ∈ sTempEq from by decide))]),
      List.filter_cons_of_neg (by simp [bnot_strContains_of_mem
        (List.mem_append_left _ (show ('=') ∈ sTopKEq from by decide))]),
      List.filter_cons_of_neg (by simp [bnot_strContains_of_mem
        (List.mem_append_left _ (show ('=') ∈ sTopPEq from by decide))]),
      List.filter_cons_of_neg (by simp [bnot_strContains_of_mem
        (List.mem_append_left _ (show ('=') ∈ sCtxSizeEq from by decide))]),
      List.filter_cons_of_neg (by simp [bnot_strContains_of_mem
        (List.mem_append_left _ (show ('=') ∈ sThreadsEq from by decide))]),
      List.filter_cons_of_neg (by simp [bnot_strContains_of_mem
        (List.mem_append_left _ (show ('=') ∈ sGpuLayersEq from by decide))]),
      List.filter_cons_of_neg (by simp [bnot_strContains_of_mem
        (List.mem_append_left _ (show ('=') ∈ sInterFirstEq from by decide))]),
      List.filter_cons_of_pos (by simp [bnot_strContains_of_not_mem hn_free.2]),
      List.filter_cons_of_pos (by simp [bnot_strContains_of_not_mem hd_free.2]),
      List.filter_nil]
  rw [decodeModeEntry, hsplit]
  dsimp only
  simp only [List.getD_cons_zero, List.getD_cons_succ, List.length_cons,
    List.length_nil, true_and]
  refine congrArg some ?_
  show ChatModeConfig.mk _ _ _ _ _ =
    ChatModeConfig.mk r.name r.description r.model_path r.prompt_path r.parameters
  rw [ChatModeConfig.mk.injEq]
  have hcond2 : ¬ strContains r.prompt_path '=' = true := by
    rw [strContains_eq_false.mpr hp_eq]
    simp
  refine ⟨?_, ?_, ?_, ?_, ?_⟩
  · rw [List.filter_cons, hfiltertail]
    by_cases hpm : (fun part => !strContains part '=') r.model_path = true
    · rw [if_pos hpm]
      rfl
    · rw [if_neg hpm]
      rfl
  · rw [List.filter_cons, hfiltertail]
    by_cases hpm : (fun part => !strContains part '=') r.model_path = true
    · rw [if_pos hpm]
      rfl
    · rw [if_neg hpm]
      rfl
  · rw [if_pos hm_abs]
  · rw [if_pos (And.intro (by norm_num) hcond2), if_pos hp_abs]
  · rw [parse_parameters_from_parts]
    rw [List.foldl_cons, stepParam_head_slash d _ (headD_of_abs hm_abs)]
    rw [List.foldl_cons, stepParam_head_slash d _ (headD_of_abs hp_abs)]
    rw [List.foldl_cons, sTempEq_append, stepParam_temp, formatF32_round hLT]
    dsimp only
    rw [List.foldl_cons, sTopKEq_append, stepParam_topk, parseI32_formatInt hK.1 hK.2]
    dsimp only
    rw [List.foldl_cons, sTopPEq_append, stepParam_topp, formatF32_round hLP]
    dsimp only
    rw [List.foldl_cons, sCtxSizeEq_append, stepParam_ctx, parseI32_formatInt hC.1 hC.2]
    dsimp only
    rw [List.foldl_cons, sThreadsEq_append, stepParam_threads,
      parseI32_formatInt (by omega) (by omega)]
    dsimp only
    rw [validate_thread_count_id hTh.1 hTh.2]
    rw [List.foldl_cons, sGpuLayersEq_append, stepParam_gpu, parseI32_formatInt hG.1 hG.2]
    dsimp only
    rw [List.foldl_cons, sInterFirstEq_append, stepParam_inter, parseBoolStr_formatBool]
    dsimp only
    rw [List.foldl_cons, stepParam_no_eq d _ (splitOnceChar_eq_none.mpr hn_free.2)]
    rw [List.foldl_cons, stepParam_no_eq d _ (splitOnceChar_eq_none.mpr hd_free.2)]
    rw [List.foldl_nil]


/-- C1 witness: the round-trip theorem instantiated at a concrete
environment and record. -/
theorem C1_witness :
    decodeModeEntry ("/h".toList) ("/p".toList) 3
        (encodeModeValue (ChatModeConfig.mk ("n".toList) ("d".toList) ("/m".toList)
          ("/p2".toList) (defaultParams 3))) =
      some (ChatModeConfig.mk ("n".toList) ("d".toList) ("/m".toList) ("/p2".toList)
        (defaultParams 3)) :=
  C1_round_trip ("/h".toList) ("/p".toList) 3 ("/m|/p2|n|d".toList)
    (ChatModeConfig.mk ("n".toList) ("d".toList) ("/m".toList) ("/p2".toList)
      (defaultParams 3))
    (by decide) (by decide) (by decide) (by decide) (by decide) (by decide) (by decide)
    (by decide) rfl


/-! ## C3 -/

/-- C3: decoding the spec's example stored mode string
`/models/a.gguf|prompts/x.txt|temp=0.8|top_k=40|Fast|quick answers`
yields a record with the absolute model path kept as-is, the prompt
path equal to the prompts directory joined with `x.txt` (the leading
`prompts/` stripped before joining), temperature `0.8`, top_k `40`,
name `Fast`, description `quick answers`, and every other parameter at
its default. -/
theorem C3_example_decode (home promptsDir : Str) (d : ℤ) :
    decodeModeEntry home promptsDir d
        ("/models/a.gguf|prompts/x.txt|temp=0.8|top_k=40|Fast|quick answers".toList) =
      some { name := "Fast".toList
             description := "quick answers".toList
             model_path := "/models/a.gguf".toList
             prompt_path := joinPath promptsDir ("x.txt".toList)
             parameters := { defaultParams d with
                               temperature_value := 0.8
                               top_k_sampling := 40 } } := by
  have hq : parseF32 ("0.8".toList) = some (0.8 : ℚ) := by
    have hfmt : formatF32 (⟨4, 5, by decide, by decide⟩ : ℚ) = "0.8".toList := by decide
    have h08 : ((⟨4, 5, by decide, by decide⟩ : ℚ)) = (0.8 : ℚ) := by
      rw [Rat.mk'_eq_divInt, Rat.divInt_eq_div]
      norm_num
    rw [← hfmt, formatF32_round
      (show ((⟨4, 5, by decide, by decide⟩ : ℚ)).den ∣ 10 ^ 1 from by decide), h08]
  have hpar : parse_parameters_from_parts d
      ["/models/a.gguf".toList, "prompts/x.txt".toList, "temp=0.8".toList,
        "top_k=40".toList, "Fast".toList, "quick answers".toList] =
      { defaultParams d with temperature_value := 0.8, top_k_sampling := 40 } := by
    rw [parse_parameters_from_parts, List.foldl_cons, stepParam_no_eq d _ (by decide),
      List.foldl_cons, stepParam_no_eq d _ (by decide), List.foldl_cons,
      (show ("temp=0.8".toList : Str) = kTemp ++ '=' :: "0.8".toList from by decide),
      stepParam_temp, hq]
    dsimp only
    rw [List.foldl_cons,
      (show ("top_k=40".toList : Str) = kTopK ++ '=' :: "40".toList from by decide),
      stepParam_topk, (show parseI32 ("40".toList) = some 40 from by decide)]
    dsimp only
    rw [List.foldl_cons, stepParam_no_eq d _ (by decide), List.foldl_cons,
      stepParam_no_eq d _ (by decide), List.foldl_nil]
  have hparts : splitOnChar '|'
      ("/models/a.gguf|prompts/x.txt|temp=0.8|top_k=40|Fast|quick answers".toList) =
      ["/models/a.gguf".toList, "prompts/x.txt".toList, "temp=0.8".toList,
        "top_k=40".toList, "Fast".toList, "quick answers".toList] := by decide
  rw [decodeModeEntry, hparts]
  dsimp only
  rw [if_neg (by decide)]
  refine congrArg some ?_
  rw [ChatModeConfig.mk.injEq]
  refine ⟨by decide, by decide, ?_, ?_, hpar⟩
  · rw [if_pos (by decide)]
    decide
  · rw [if_pos (by decide), if_neg (by decide)]
    refine congrArg (joinPath promptsDir) ?_
    decide

/-! ## C10 -/

/-- C10: in every decoded mode record the `thread_count` lies in the
inclusive range `[1, d + 1]` where `d` is the default thread count
(`get_system_cpu_count()`); a `threads=` token outside this range is
clamped to the nearest bound by `validate_thread_count`, while a plain
parameter such as `top_k` is stored verbatim when its value parses. -/
theorem C10_thread_count_clamped (home promptsDir : Str) (d : ℤ) (hd : 1 ≤ d)
    (modeFields : List Str) :
    (∀ m ∈ read_saved_modes home promptsDir d modeFields,
        1 ≤ m.parameters.thread_count ∧ m.parameters.thread_count ≤ d + 1) ∧
      (∀ v : ℤ, (v < 1 → validate_thread_count d v = 1) ∧
        (d + 1 < v → validate_thread_count d v = d + 1) ∧
        (1 ≤ v → v ≤ d + 1 → validate_thread_count d v = v)) ∧
      (∀ (p : LlamaCppParameters) (v : Str) (x : ℤ), parseI32 v = some x →
        stepParam d p (kTopK ++ '=' :: v) = { p with top_k_sampling := x }) := by
  refine ⟨?_, ?_, ?_⟩
  · intro m hm
    rw [read_saved_modes, List.mem_filterMap] at hm
    obtain ⟨entry, _, hdec⟩ := hm
    obtain ⟨-, -, -, -, -, hparams⟩ := decodeModeEntry_some hdec
    rw [hparams]
    exact (paramsInv_parse_parameters hd (splitOnChar '|' entry)).2.2.2.2.2
  · intro v
    refine ⟨?_, ?_, ?_⟩ <;> (intros; rw [validate_thread_count]; split_ifs <;> omega)
  · intro p v x hv
    rw [stepParam_topk, hv]

/-- C10 witness: the theorem instantiated at a concrete environment and
mode list. -/
theorem C10_witness :
    (∀ m ∈ read_saved_modes ("/home/u".toList) ("/home/u/p".toList) 3
        ["/m|/p|threads=99|n|d".toList],
        1 ≤ m.parameters.thread_count ∧ m.parameters.thread_count ≤ 3 + 1) ∧
      (∀ v : ℤ, (v < 1 → validate_thread_count 3 v = 1) ∧
        (3 + 1 < v → validate_thread_count 3 v = 3 + 1) ∧
        (1 ≤ v → v ≤ 3 + 1 → validate_thread_count 3 v = v)) ∧
      (∀ (p : LlamaCppParameters) (v : Str) (x : ℤ), parseI32 v = some x →
        stepParam 3 p (kTopK ++ '=' :: v) = { p with top_k_sampling := x }) :=
  C10_thread_count_clamped ("/home/u".toList) ("/home/u/p".toList) 3 (by norm_num)
    ["/m|/p|threads=99|n|d".toList]

/-! ## C8 -/

/-- C8: a parameter token whose value fails to parse (such as
`top_k=abc`), or whose key is not one of the seven recognized keys, is
dropped by `parse_parameters_from_parts`: the resulting record is the
one obtained with the token removed, so every other field decodes
normally and the token's own parameter stays at its default. -/
theorem C8_dropped_token (d : ℤ) (pre post : List Str) (t : Str)
    (h : isDroppedParamToken t = true) :
    parse_parameters_from_parts d (pre ++ t :: post) =
      parse_parameters_from_parts d (pre ++ post) := by
  rw [parse_parameters_from_parts, parse_parameters_from_parts, List.foldl_append,
    List.foldl_cons, stepParam_of_dropped d _ h, List.foldl_append]

/-- C8 witness: an unparseable `top_k=abc` token and an unknown
`mystery=5` token are both dropped. -/
theorem C8_witness :
    isDroppedParamToken ("top_k=abc".toList) = true ∧
      isDroppedParamToken ("mystery=5".toList) = true ∧
      parse_parameters_from_parts 3 ["/m".toList, "top_k=abc".toList, "n".toList] =
        parse_parameters_from_parts 3 ["/m".toList, "n".toList] ∧
      parse_parameters_from_parts 3 ["mystery=5".toList] = parse_parameters_from_parts 3 [] :=
  ⟨by decide, by decide,
    C8_dropped_token 3 ["/m".toList] ["n".toList] ("top_k=abc".toList) (by decide),
    C8_dropped_token 3 [] [] ("mystery=5".toList) (by decide)⟩

/-! ## C5 -/

/-- C5: a stored mode string containing no `'|'` is discarded by
`read_saved_modes` (split on `'|'` gives a single segment, fewer than
the required 2): it contributes nothing to the decoded mode list, no
error is raised (the function is total and simply skips it), and every
other entry of the same configuration decodes exactly as before. -/
theorem C5_pipeless_skipped (home promptsDir : Str) (d : ℤ) (pre post : List Str)
    (s : Str) (h : strContains s '|' = false) :
    read_saved_modes home promptsDir d (pre ++ s :: post) =
      read_saved_modes home promptsDir d (pre ++ post) := by
  have hdec : decodeModeEntry home promptsDir d s = none := by
    rw [decodeModeEntry, splitOnChar_of_not_mem (strContains_eq_false.mp h)]
    rw [if_pos (by norm_num)]
  rw [read_saved_modes, read_saved_modes, List.filterMap_append, List.filterMap_cons,
    hdec, List.filterMap_append]

/-- C5 witness: a pipe-free entry between two well-formed entries is
skipped and the others are still decoded. -/
theorem C5_witness :
    strContains ("nopipe".toList) '|' = false ∧
      read_saved_modes ("/home/u".toList) ("/home/u/p".toList) 3
          (["/a|/b|x|y".toList] ++ ("nopipe".toList) :: ["/c|/e|n|d".toList]) =
        read_saved_modes ("/home/u".toList) ("/home/u/p".toList) 3
          (["/a|/b|x|y".toList] ++ ["/c|/e|n|d".toList]) :=
  ⟨by decide,
    C5_pipeless_skipped ("/home/u".toList) ("/home/u/p".toList) 3
      ["/a|/b|x|y".toList] ["/c|/e|n|d".toList] ("nopipe".toList) (by decide)⟩

/-! ## C6 -/

/-- C6 counterexample: for the entry `/m|/p|temp=1` the segments after
the model-path and prompt-path segments contain zero `=`-free segments,
yet the decoded record's name is the model-path segment `/m` (not
empty) and its description is the prompt-path segment `/p`: the code
filters the `=`-free segments of the WHOLE list, so the path segments
are used as name and description, contradicting the claim. -/
theorem C6_counterexample :
    (((splitOnChar '|' ("/m|/p|temp=1".toList)).drop 2).filter
        (fun part => !strContains part '=')).length < 2 ∧
      (decodeModeEntry ("/h".toList) ("/q".toList) 3 ("/m|/p|temp=1".toList)).map
          ChatModeConfig.name = some ("/m".toList) ∧
      (decodeModeEntry ("/h".toList) ("/q".toList) 3 ("/m|/p|temp=1".toList)).map
          ChatModeConfig.description = some ("/p".toList) ∧
      ("/m".toList : Str) ≠ [] := by
  refine ⟨by decide, ?_, ?_, by decide⟩ <;> rfl

/-- C6 (amended): in a successfully decoded entry, name and description
are empty exactly when fewer than two of ALL the pipe-delimited
segments (including the model-path and prompt-path segments) are free
of `=`; otherwise the last two `=`-free segments — which may be the
path segments themselves — become the name and the description. -/
theorem C6_name_description (home promptsDir : Str) (d : ℤ) (s : Str)
    (r : ChatModeConfig) (h : decodeModeEntry home promptsDir d s = some r) :
    ((nonParamSegments s).length < 2 → r.name = [] ∧ r.description = []) ∧
      (2 ≤ (nonParamSegments s).length →
        r.name = (nonParamSegments s).getD ((nonParamSegments s).length - 2) [] ∧
        r.description = (nonParamSegments s).getD ((nonParamSegments s).length - 1) []) := by
  obtain ⟨-, -, -, hname, hdesc, -⟩ := decodeModeEntry_some h
  constructor
  · intro hlt
    rw [hname, hdesc, if_neg (by omega), if_neg (by omega)]
    exact ⟨rfl, rfl⟩
  · intro hge
    rw [hname, hdesc, if_pos hge, if_pos hge]
    exact ⟨rfl, rfl⟩

/-- C6 witness: the amended theorem instantiated at the entry
`/m|/p|n|d`, whose four segments are all `=`-free. -/
theorem C6_witness :
    (((nonParamSegments ("/m|/p|n|d".toList)).length < 2 →
        (ChatModeConfig.mk ("n".toList) ("d".toList) ("/m".toList) ("/p".toList)
            (parse_parameters_from_parts 3 (splitOnChar '|' ("/m|/p|n|d".toList)))).name = [] ∧
        (ChatModeConfig.mk ("n".toList) ("d".toList) ("/m".toList) ("/p".toList)
            (parse_parameters_from_parts 3 (splitOnChar '|' ("/m|/p|n|d".toList)))).description
          = []) ∧
      (2 ≤ (nonParamSegments ("/m|/p|n|d".toList)).length →
        (ChatModeConfig.mk ("n".toList) ("d".toList) ("/m".toList) ("/p".toList)
            (parse_parameters_from_parts 3 (splitOnChar '|' ("/m|/p|n|d".toList)))).name =
            (nonParamSegments ("/m|/p|n|d".toList)).getD
              ((nonParamSegments ("/m|/p|n|d".toList)).length - 2) [] ∧
        (ChatModeConfig.mk ("n".toList) ("d".toList) ("/m".toList) ("/p".toList)
            (parse_parameters_from_parts 3 (splitOnChar '|' ("/m|/p|n|d".toList)))).description =
            (nonParamSegments ("/m|/p|n|d".toList)).getD
              ((nonParamSegments ("/m|/p|n|d".toList)).length - 1) [])) :=
  C6_name_description ("/h".toList) ("/q".toList) 3 ("/m|/p|n|d".toList) _ (by rfl)

end QueryGguf
